import Mathlib

/-!
Verification of the mzML indexing / random-access subsystem of the
omicstools repository, shallowly embedded in Lean 4.

Conventions used throughout this development:

* Rust byte buffers (`Vec<u8>`, `&[u8]`) are `List Nat`, one entry per byte.
* Rust `usize` arithmetic is `Nat`.  A subtraction that can underflow in the
  source is modelled explicitly: a potential underflow yields the
  `RustResult.panicked` outcome (matching the arithmetic-overflow check of a
  Rust debug build; in a release build the wrapped offset triggers a
  slice-bounds panic at its next use, so the run aborts either way).
* `anyhow::Result<T>` is `Except String T` for straight-line code and
  `RustResult T` where panics or unbounded loops are possible.
* Unbounded `loop` constructs take an explicit fuel argument; exhausting the
  fuel yields `RustResult.outOfFuel`, which marks divergence of the source.
* `HashMap<String, usize>` is an association list with a replacing insert;
  map reads go through `lookupAssoc`, which returns the most recently
  inserted binding, matching `HashMap` lookup.
* External crates (base64, flate2, quick-xml event production, the network
  ontology fetch) are not code of this repository; they enter as explicit
  function parameters or as fields of the event values.
-/

set_option maxHeartbeats 4000000
set_option maxRecDepth 40000

/-- Bytes of a string literal (code points; ASCII throughout the fixtures). -/
def strBytes (s : String) : List Nat :=
  s.data.map Char.toNat

/-- Position of the first occurrence of `pat` in `l`, as computed by
`slice.windows(pat.len()).position(|w| w == pat)` in the source: the least
index whose window equals `pat` (a suffix shorter than `pat` can never
match, so the too-short tail cases coincide with Rust yielding no window). -/
def findSub (pat : List Nat) : List Nat → Option Nat
  | [] => if pat = [] then some 0 else none
  | a :: l =>
    if (a :: l).take pat.length = pat then some 0
    else (findSub pat l).map (· + 1)

/-- `pat` occurs in `l` at position `i`. -/
def occursAt (pat l : List Nat) (i : Nat) : Prop :=
  (l.drop i).take pat.length = pat

instance (pat l : List Nat) (i : Nat) : Decidable (occursAt pat l i) := by
  unfold occursAt; infer_instance

theorem occursAt_nil (pat : List Nat) (i : Nat) (h : occursAt pat [] i) : pat = [] := by
  simpa [occursAt] using h.symm

theorem occursAt_zero (pat l : List Nat) : occursAt pat l 0 ↔ l.take pat.length = pat := by
  simp [occursAt]

theorem occursAt_cons (pat : List Nat) (a : Nat) (l : List Nat) (i : Nat) :
    occursAt pat (a :: l) (i + 1) ↔ occursAt pat l i := by
  simp [occursAt]

theorem findSub_some_occursAt (pat l : List Nat) (i : Nat)
    (h : findSub pat l = some i) : occursAt pat l i := by
  induction l generalizing i with
  | nil =>
    by_cases hp : pat = [] <;> simp [findSub, hp] at h
    simp [occursAt, hp, ← h]
  | cons a l ih =>
    by_cases h0 : (a :: l).take pat.length = pat
    · simp [findSub, h0] at h
      simpa [occursAt, ← h] using h0
    · simp [findSub, h0] at h
      obtain ⟨j, hj, rfl⟩ := h
      simpa [occursAt_cons] using ih j hj

theorem findSub_some_min (pat l : List Nat) (i : Nat)
    (h : findSub pat l = some i) : ∀ j, j < i → ¬ occursAt pat l j := by
  induction l generalizing i with
  | nil =>
    by_cases hp : pat = [] <;> simp [findSub, hp] at h
    omega
  | cons a l ih =>
    by_cases h0 : (a :: l).take pat.length = pat
    · simp [findSub, h0] at h
      omega
    · simp [findSub, h0] at h
      obtain ⟨j', hj', rfl⟩ := h
      intro j hj
      cases j with
      | zero => simpa [occursAt_zero] using h0
      | succ j =>
        rw [occursAt_cons]
        exact ih j' hj' j (by omega)

theorem findSub_none_iff (pat l : List Nat) :
    findSub pat l = none ↔ ∀ j, ¬ occursAt pat l j := by
  induction l with
  | nil =>
    by_cases hp : pat = [] <;> simp [findSub, hp]
    · exact ⟨0, by simp [occursAt, hp]⟩
    · intro j h
      exact hp (occursAt_nil pat j h)
  | cons a l ih =>
    by_cases h0 : (a :: l).take pat.length = pat
    · simp [findSub, h0]
      exact ⟨0, by simpa [occursAt_zero] using h0⟩
    · simp only [findSub, h0, if_false]
      rw [Option.map_eq_none']
      rw [ih]
      constructor
      · intro h j
        cases j with
        | zero => simpa [occursAt_zero] using h0
        | succ j => rw [occursAt_cons]; exact h j
      · intro h j
        have := h (j + 1)
        rwa [occursAt_cons] at this

theorem findSub_eq_some_of (pat l : List Nat) (i : Nat)
    (hocc : occursAt pat l i) (hmin : ∀ j, j < i → ¬ occursAt pat l j) :
    findSub pat l = some i := by
  cases h : findSub pat l with
  | none =>
    exact absurd hocc ((findSub_none_iff pat l).mp h i)
  | some i' =>
    have h1 := findSub_some_occursAt pat l i' h
    have h2 := findSub_some_min pat l i' h
    rcases Nat.lt_trichotomy i i' with hlt | heq | hgt
    · exact absurd hocc (h2 i hlt)
    · rw [heq]
    · exact absurd h1 (hmin i' hgt)

theorem occursAt_length_le (pat l : List Nat) (i : Nat)
    (hp : pat ≠ []) (h : occursAt pat l i) : i + pat.length ≤ l.length := by
  have hlen := congrArg List.length h
  simp [List.length_take, List.length_drop] at hlen
  have hppos : 0 < pat.length := List.length_pos.mpr hp
  omega

theorem occursAt_take_iff (pat l : List Nat) (n i : Nat)
    (hfit : i + pat.length ≤ n) :
    occursAt pat (l.take n) i ↔ occursAt pat l i := by
  unfold occursAt
  rw [List.drop_take, List.take_take, Nat.min_eq_left (by omega)]

theorem occursAt_drop_iff (pat l : List Nat) (k i : Nat) :
    occursAt pat (l.drop k) i ↔ occursAt pat l (k + i) := by
  unfold occursAt
  rw [List.drop_drop]

/-- Transfer an occurrence between a slice `(input.drop b).take len` and the
underlying list, for windows that fit inside the slice. -/
theorem occursAt_slice_iff (pat input : List Nat) (b len i : Nat)
    (hfit : i + pat.length ≤ len) :
    occursAt pat ((input.drop b).take len) i ↔ occursAt pat input (b + i) := by
  rw [occursAt_take_iff pat _ len i hfit, occursAt_drop_iff]

theorem occursAt_getElem? (pat l : List Nat) (i : Nat)
    (h : occursAt pat l i) (k : Nat) (hk : k < pat.length) :
    l[i + k]? = pat[k]? := by
  unfold occursAt at h
  rw [← h, List.getElem?_take, if_pos hk, List.getElem?_drop]

/-- First occurrence in a prefix of a longer list is the first occurrence in
the longer list, provided nothing occurs in between (used when the indexer
buffer grows by a chunk). -/
theorem occursAt_prefix_iff (pat l l2 : List Nat) (i : Nat)
    (hfit : i + pat.length ≤ l.length) :
    occursAt pat (l ++ l2) i ↔ occursAt pat l i := by
  rw [← occursAt_take_iff pat (l ++ l2) l.length i hfit, List.take_left]

/-- Association-list model of `HashMap<_, usize>`: lookup returns the most
recently inserted binding. -/
def lookupAssoc {α β : Type} [DecidableEq α] : List (α × β) → α → Option β
  | [], _ => none
  | p :: rest, k => if p.1 = k then some p.2 else lookupAssoc rest k

/-- `HashMap::insert`, replacing any existing binding of the key. -/
def insertAssoc {α β : Type} [DecidableEq α] (k : α) (v : β) (m : List (α × β)) :
    List (α × β) :=
  (k, v) :: m.filter (fun p => decide (p.1 ≠ k))

theorem mem_insertAssoc {α β : Type} [DecidableEq α] (k : α) (v : β)
    (m : List (α × β)) (a : α × β) (h : a ∈ insertAssoc k v m) :
    a = (k, v) ∨ a ∈ m := by
  unfold insertAssoc at h
  rcases List.mem_cons.mp h with h' | h'
  · exact Or.inl h'
  · exact Or.inr (List.mem_of_mem_filter h')

theorem lookupAssoc_filter_ne {α β : Type} [DecidableEq α] (k k' : α)
    (hk : ¬ k = k') (m : List (α × β)) :
    lookupAssoc (m.filter (fun p => decide (p.1 ≠ k))) k' = lookupAssoc m k' := by
  induction m with
  | nil => rfl
  | cons p rest ih =>
    rw [List.filter_cons]
    by_cases hpk : p.1 = k
    · have hpk' : ¬ p.1 = k' := fun hh => hk (hpk ▸ hh)
      have hr : lookupAssoc (p :: rest) k' = lookupAssoc rest k' := by
        simp [lookupAssoc, hpk']
      rw [if_neg (by simp [hpk]), hr]
      exact ih
    · rw [if_pos (by simp [hpk])]
      simp only [lookupAssoc]
      split
      · rfl
      · exact ih

theorem lookupAssoc_insertAssoc {α β : Type} [DecidableEq α] (k k' : α) (v : β)
    (m : List (α × β)) :
    lookupAssoc (insertAssoc k v m) k' =
      if k = k' then some v else lookupAssoc m k' := by
  unfold insertAssoc
  by_cases hk : k = k'
  · simp [lookupAssoc, hk]
  · simp only [lookupAssoc, hk, if_false, if_neg hk]
    exact lookupAssoc_filter_ne k k' hk m

/-! ## Controlled-vocabulary validation (`validators/cv_params_list.rs`,
`elements/has_cv_params.rs`, `elements/cv_param.rs`)

`Ontology::get_children_of` (src/src/proteomics/ontology.rs) performs a
network fetch / disk cache before returning the transitive descendant set of
an accession; it enters the embedding as an explicit function parameter
`ChildrenFn`. -/

/-- `CvParam` (elements/cv_param.rs). -/
structure CvParam where
  cvRef : String
  accession : String
  name : String
  value : String
  unitCvRef : Option String
  unitAccession : Option String
  unitName : Option String
deriving DecidableEq

/-- A `cvParam` carrying only an accession, as in the validator tests. -/
def mkCvParam (accession : String) : CvParam :=
  ⟨"MS", accession, "", "", none, none, none⟩

/-- `CvParam::validate` (elements/cv_param.rs) always succeeds. -/
def cvParamValidate (_ : CvParam) : Except String Unit := .ok ()

/-- The four groups of parent accessions a `build_cv_params_validator!`
invocation configures for one element kind (the `ValidationRuleSet`). -/
structure ValidationRuleSet where
  mustOnce : List String
  mustOnceOrMany : List String
  mayOnce : List String
  zeroOrMany : List String
deriving DecidableEq

/-- `Ontology::get_children_of`, abstracted over the fetched graphs. -/
def ChildrenFn : Type := String → Except String (List String)

/-- Number of entries of `children` for which some attached `cvParam` has
that accession (`child_matches.iter().filter(|m| **m).count()`). -/
def countChildMatches (cvParams : List CvParam) (children : List String) : Nat :=
  (children.filter (fun child => cvParams.any (fun p => p.accession == child))).length

/-- `[_, ..].join(", ")`. -/
def joinComma : List String → String
  | [] => ""
  | [s] => s
  | s :: rest => s ++ ", " ++ joinComma rest

/-- `CvParamsValidator::validate_must_once` (validators/cv_params_list.rs,
lines 19-50), recursing over the configured parent accessions. -/
def validateMustOnce (children : ChildrenFn) (cvParams : List CvParam)
    (elementTag : String) (accepted : List String) :
    List String → Except String (List String)
  | [] => .ok accepted
  | parent :: rest =>
    match children parent with
    | .error e => .error e
    | .ok cs =>
      match countChildMatches cvParams cs with
      | 1 => validateMustOnce children cvParams elementTag (accepted ++ cs) rest
      | 0 => .error ("One of the following cvParams must be present in the <"
          ++ elementTag ++ "> element: " ++ joinComma cs)
      | _ => .error ("Only one of the following cvParams must be present in the <"
          ++ elementTag ++ "> element: " ++ joinComma cs)

/-- `CvParamsValidator::validate_must_once_or_many` (lines 58-88). -/
def validateMustOnceOrMany (children : ChildrenFn) (cvParams : List CvParam)
    (elementTag : String) (accepted : List String) :
    List String → Except String (List String)
  | [] => .ok accepted
  | parent :: rest =>
    match children parent with
    | .error e => .error e
    | .ok cs =>
      match countChildMatches cvParams cs with
      | 0 => .error ("At least one of the following cvParams must be present in the <"
          ++ elementTag ++ "> element: " ++ joinComma cs)
      | _ => validateMustOnceOrMany children cvParams elementTag (accepted ++ cs) rest

/-- `CvParamsValidator::validate_may_once` (lines 96-126). -/
def validateMayOnce (children : ChildrenFn) (cvParams : List CvParam)
    (elementTag : String) (accepted : List String) :
    List String → Except String (List String)
  | [] => .ok accepted
  | parent :: rest =>
    match children parent with
    | .error e => .error e
    | .ok cs =>
      match countChildMatches cvParams cs with
      | 1 => validateMayOnce children cvParams elementTag (accepted ++ cs) rest
      | 0 => validateMayOnce children cvParams elementTag accepted rest
      | _ => .error ("Only zero or one of the following cvParams can be present in the <"
          ++ elementTag ++ "> element: " ++ joinComma cs)

/-- `CvParamsValidator::validate_cv_params` (validators/cv_params_list.rs,
lines 130-137): the three cardinality groups are checked and their accepted
child sets are returned — and discarded by the `?` operator.  The
`zeroOrMany` group is never consulted. -/
def validateCvParams (children : ChildrenFn) (rules : ValidationRuleSet)
    (cvParams : List CvParam) (elementTag : String) : Except String Unit :=
  match validateMustOnce children cvParams elementTag [] rules.mustOnce with
  | .error e => .error e
  | .ok _ =>
    match validateMustOnceOrMany children cvParams elementTag [] rules.mustOnceOrMany with
    | .error e => .error e
    | .ok _ =>
      match validateMayOnce children cvParams elementTag [] rules.mayOnce with
      | .error e => .error e
      | .ok _ => .ok ()

/-- `HasCvParams::validate_cv_params` (elements/has_cv_params.rs, lines
151-161): additionally runs the always-`Ok` `CvParam::validate` on every
attached term first, then performs the same three group checks. -/
def hasCvParamsValidate (children : ChildrenFn) (rules : ValidationRuleSet)
    (cvParams : List CvParam) (elementTag : String) : Except String Unit :=
  match cvParams.findSome? (fun p => match cvParamValidate p with
      | .error e => some e
      | .ok _ => none) with
  | some e => .error e
  | none => validateCvParams children rules cvParams elementTag

/-- Ontology fixture: one configured parent with two descendants. -/
def exOntology : ChildrenFn := fun accession =>
  if accession = "MS:1000001" then .ok ["MS:1000002", "MS:1000003"]
  else .error ("Invalid ontology part in accession " ++ accession)

/-- Rule-set fixture: one exactly-one-required parent, other groups empty. -/
def exRules : ValidationRuleSet := ⟨["MS:1000001"], [], [], []⟩

/-- Term list satisfying the mandatory rule and additionally carrying an
accession outside every configured descendant set. -/
def exCvParamsAlien : List CvParam :=
  [mkCvParam "MS:1000002", mkCvParam "MS:9999999"]

/-- C1 counterexample: with an exactly-one rule satisfied by `MS:1000002`,
the attached term `MS:9999999` lies outside the union of the configured
parents' descendant sets over all four groups, yet `validate_cv_params`
succeeds — no closed-world rejection is performed. -/
theorem c1_counterexample :
    validateCvParams exOntology exRules exCvParamsAlien "spectrum" = .ok () ∧
    hasCvParamsValidate exOntology exRules exCvParamsAlien "spectrum" = .ok () ∧
    mkCvParam "MS:9999999" ∈ exCvParamsAlien ∧
    "MS:9999999" ∉ ["MS:1000002", "MS:1000003"] :=
  ⟨rfl, rfl, by decide, by decide⟩

theorem countChildMatches_append_foreign (cvParams : List CvParam) (t : CvParam)
    (cs : List String) (hne : t.accession ∉ cs) :
    countChildMatches (cvParams ++ [t]) cs = countChildMatches cvParams cs := by
  unfold countChildMatches
  congr 1
  apply List.filter_congr
  intro c hc
  have htc : (t.accession == c) = false := by
    rw [beq_eq_false_iff_ne]
    exact fun hh => hne (hh ▸ hc)
  simp [List.any_append, htc]

theorem validateMustOnce_append_foreign (children : ChildrenFn)
    (cvParams : List CvParam) (elementTag : String) (t : CvParam) :
    ∀ (parents : List String) (accepted : List String),
    (∀ parent ∈ parents, ∀ cs, children parent = .ok cs → t.accession ∉ cs) →
    validateMustOnce children (cvParams ++ [t]) elementTag accepted parents
      = validateMustOnce children cvParams elementTag accepted parents := by
  intro parents
  induction parents with
  | nil => intro accepted _; rfl
  | cons parent rest ih =>
    intro accepted h
    simp only [validateMustOnce]
    cases hcp : children parent with
    | error e => rfl
    | ok cs =>
      dsimp only
      rw [countChildMatches_append_foreign cvParams t cs
        (h parent (List.mem_cons_self parent rest) cs hcp)]
      cases hc : countChildMatches cvParams cs with
      | zero => rfl
      | succ n =>
        cases n with
        | zero => exact ih (accepted ++ cs) (fun p hp => h p (List.mem_cons_of_mem _ hp))
        | succ m => rfl

theorem validateMustOnceOrMany_append_foreign (children : ChildrenFn)
    (cvParams : List CvParam) (elementTag : String) (t : CvParam) :
    ∀ (parents : List String) (accepted : List String),
    (∀ parent ∈ parents, ∀ cs, children parent = .ok cs → t.accession ∉ cs) →
    validateMustOnceOrMany children (cvParams ++ [t]) elementTag accepted parents
      = validateMustOnceOrMany children cvParams elementTag accepted parents := by
  intro parents
  induction parents with
  | nil => intro accepted _; rfl
  | cons parent rest ih =>
    intro accepted h
    simp only [validateMustOnceOrMany]
    cases hcp : children parent with
    | error e => rfl
    | ok cs =>
      dsimp only
      rw [countChildMatches_append_foreign cvParams t cs
        (h parent (List.mem_cons_self parent rest) cs hcp)]
      cases hc : countChildMatches cvParams cs with
      | zero => rfl
      | succ n => exact ih (accepted ++ cs) (fun p hp => h p (List.mem_cons_of_mem _ hp))

theorem validateMayOnce_append_foreign (children : ChildrenFn)
    (cvParams : List CvParam) (elementTag : String) (t : CvParam) :
    ∀ (parents : List String) (accepted : List String),
    (∀ parent ∈ parents, ∀ cs, children parent = .ok cs → t.accession ∉ cs) →
    validateMayOnce children (cvParams ++ [t]) elementTag accepted parents
      = validateMayOnce children cvParams elementTag accepted parents := by
  intro parents
  induction parents with
  | nil => intro accepted _; rfl
  | cons parent rest ih =>
    intro accepted h
    simp only [validateMayOnce]
    cases hcp : children parent with
    | error e => rfl
    | ok cs =>
      dsimp only
      rw [countChildMatches_append_foreign cvParams t cs
        (h parent (List.mem_cons_self parent rest) cs hcp)]
      cases hc : countChildMatches cvParams cs with
      | zero => exact ih accepted (fun p hp => h p (List.mem_cons_of_mem _ hp))
      | succ n =>
        cases n with
        | zero => exact ih (accepted ++ cs) (fun p hp => h p (List.mem_cons_of_mem _ hp))
        | succ m => rfl

/-- C1 amended: `validate_cv_params` checks only the three cardinality
groups; the accepted-accession sets it computes are discarded, so a term
whose accession lies outside every configured parent's descendant set (over
all four groups) is never rejected — appending such a term to an element
that validates leaves validation succeeding. -/
theorem validateCvParams_ignores_foreign (children : ChildrenFn)
    (rules : ValidationRuleSet) (cvParams : List CvParam) (elementTag : String)
    (t : CvParam)
    (hok : validateCvParams children rules cvParams elementTag = .ok ())
    (hforeign : ∀ parent, (parent ∈ rules.mustOnce ∨ parent ∈ rules.mustOnceOrMany ∨
        parent ∈ rules.mayOnce ∨ parent ∈ rules.zeroOrMany) →
        ∀ cs, children parent = .ok cs → t.accession ∉ cs) :
    validateCvParams children rules (cvParams ++ [t]) elementTag = .ok () := by
  unfold validateCvParams at hok ⊢
  rw [validateMustOnce_append_foreign children cvParams elementTag t rules.mustOnce []
      (fun p hp => hforeign p (Or.inl hp)),
    validateMustOnceOrMany_append_foreign children cvParams elementTag t
      rules.mustOnceOrMany [] (fun p hp => hforeign p (Or.inr (Or.inl hp))),
    validateMayOnce_append_foreign children cvParams elementTag t rules.mayOnce []
      (fun p hp => hforeign p (Or.inr (Or.inr (Or.inl hp))))]
  exact hok

/-- Terms satisfying the fixture's mandatory rule, with no foreign term. -/
def exCvParamsBase : List CvParam := [mkCvParam "MS:1000002"]

/-- C1 witness: the amended theorem applied to the fixture rule set. -/
theorem c1_witness :
    validateCvParams exOntology exRules (exCvParamsBase ++ [mkCvParam "MS:7777777"])
      "spectrum" = .ok () :=
  validateCvParams_ignores_foreign exOntology exRules exCvParamsBase "spectrum"
    (mkCvParam "MS:7777777") rfl
    (fun parent hp cs hcs => by
      have hp' : parent = "MS:1000001" := by
        rcases hp with h | h | h | h <;> simp [exRules] at h <;> try exact h
      subst hp'
      have : cs = ["MS:1000002", "MS:1000003"] := by
        simp [exOntology] at hcs
        exact hcs.symm
      subst this
      decide)

/-! ## Binary payload decoding (`elements/binary_data_array.rs`)

`base64::decode` and `flate2::ZlibDecoder` are external crates; they enter
as the function parameters `b64` and `inflate`.  IEEE-754 values are carried
as their bit patterns (`Nat` below `2^32` / `2^64`); the `f32` → `f64` cast
is the exact bit-level widening `f32ToF64Bits`. -/

/-- `<binary>` element (elements/binary.rs): the base-64 payload text. -/
structure Binary where
  data : String
deriving DecidableEq

/-- `BinaryDataArray` (elements/binary_data_array.rs).  The
`referenceableParamGroupRef` and `userParam` children are not consulted by
`deflate_data` or its validator and are left out of the embedding. -/
structure BinaryDataArray where
  encodedLength : Nat
  arrayLength : Option Nat
  dataProcessingRef : Option String
  cvParams : List CvParam
  binary : Binary
deriving DecidableEq

/-- `base64::Engine::decode`, abstract. -/
def B64Decode : Type := String → Except String (List Nat)

/-- `ZlibDecoder::read_to_end`, abstract. -/
def ZlibInflate : Type := List Nat → Except String (List Nat)

/-- Little-endian byte interpretation (`from_le_bytes`). -/
def leNat (bytes : List Nat) : Nat :=
  bytes.foldr (fun b acc => b % 256 + 256 * acc) 0

/-- Exact bit-level `f32 as f64` widening: sign, rebasing the exponent from
bias 127 to bias 1023, shifting the fraction by 29; subnormals are
normalised, infinities and NaNs map to exponent `0x7ff` with the payload
shifted (the hardware convention for quiet NaNs). -/
def f32ToF64Bits (bits : Nat) : Nat :=
  let b := bits % 2 ^ 32
  let sign := b / 2 ^ 31
  let e := b / 2 ^ 23 % 2 ^ 8
  let m := b % 2 ^ 23
  if e = 255 then sign * 2 ^ 63 + 2047 * 2 ^ 52 + m * 2 ^ 29
  else if e = 0 then
    if m = 0 then sign * 2 ^ 63
    else
      let k := Nat.log2 m
      sign * 2 ^ 63 + (k + 874) * 2 ^ 52 + (m - 2 ^ k) * 2 ^ (52 - k)
  else sign * 2 ^ 63 + (e + 896) * 2 ^ 52 + m * 2 ^ 29

/-- Rust `slice::chunks(n)`: consecutive chunks of `n` elements, the final
chunk possibly shorter (`n = 0` panics in Rust and is never used here). -/
def listChunks (n : Nat) : List Nat → List (List Nat)
  | [] => []
  | a :: l =>
    if n = 0 then []
    else (a :: l).take n :: listChunks n (l.drop (n - 1))
termination_by l => l.length
decreasing_by simp [List.length_drop]; omega

theorem listChunks_flatten (n : Nat) (hn : 0 < n) :
    ∀ (bound : Nat) (l : List Nat), l.length ≤ bound → (listChunks n l).flatten = l := by
  intro bound
  induction bound with
  | zero =>
    intro l hl
    have : l = [] := List.eq_nil_of_length_eq_zero (Nat.le_zero.mp hl)
    subst this
    simp [listChunks]
  | succ b ih =>
    intro l hl
    cases l with
    | nil => simp [listChunks]
    | cons a l =>
      rw [listChunks, if_neg (Nat.pos_iff_ne_zero.mp hn)]
      rw [List.flatten_cons]
      have hdrop : (a :: l).drop n = l.drop (n - 1) := by
        cases n with
        | zero => omega
        | succ m => simp
      rw [ih (l.drop (n - 1)) (by simp [List.length_drop] at hl ⊢; omega)]
      rw [← hdrop, List.take_append_drop]

theorem listChunks_length_mem (n : Nat) (hn : 0 < n) :
    ∀ (bound : Nat) (l : List Nat), l.length ≤ bound → l.length % n = 0 →
      ∀ c ∈ listChunks n l, c.length = n := by
  intro bound
  induction bound with
  | zero =>
    intro l hl _ c hc
    have : l = [] := List.eq_nil_of_length_eq_zero (Nat.le_zero.mp hl)
    subst this
    simp [listChunks] at hc
  | succ b ih =>
    intro l hl hmod c hc
    cases l with
    | nil => simp [listChunks] at hc
    | cons a l =>
      rw [listChunks, if_neg (Nat.pos_iff_ne_zero.mp hn)] at hc
      have hlen : n ≤ (a :: l).length := by
        rcases Nat.lt_or_ge (a :: l).length n with hlt | hge
        · exact absurd (Nat.mod_eq_of_lt hlt ▸ hmod) (by simp)
        · exact hge
      have hlen' : n ≤ l.length + 1 := by simpa using hlen
      rcases List.mem_cons.mp hc with hc | hc
      · subst hc
        simp [List.length_take]
        omega
      · have hdlen : (l.drop (n - 1)).length = (a :: l).length - n := by
          simp [List.length_drop]
          omega
        refine ih (l.drop (n - 1)) ?_ ?_ c hc
        · simp [List.length_drop] at hl ⊢
          omega
        · rw [hdlen]
          obtain ⟨k, hk⟩ : n ∣ (a :: l).length := Nat.dvd_of_mod_eq_zero hmod
          cases k with
          | zero => simp at hk
          | succ k' =>
            have h2 : (a :: l).length - n = n * k' := by
              rw [hk, Nat.mul_succ]
              omega
            rw [h2, Nat.mul_mod_right]

/-- First half of `BinaryDataArray::deflate_data`
(elements/binary_data_array.rs, lines 33-54): locate the compression
declaration among the two recognised accessions and decompress. -/
def uncompressedData (b64 : B64Decode) (inflate : ZlibInflate)
    (arr : BinaryDataArray) : Except String (List Nat) :=
  match arr.cvParams.find? (fun p =>
      p.accession == "MS:1000574" || p.accession == "MS:1000576") with
  | none => .error "Compression cvParam not found"
  | some compressionCvParam =>
    if compressionCvParam.accession == "MS:1000574" then
      match b64 arr.binary.data with
      | .error e => .error e
      | .ok decodedData => inflate decodedData
    else if compressionCvParam.accession == "MS:1000576" then
      b64 arr.binary.data
    else .error "Unknown compression cvParam"

/-- `BinaryDataArray::deflate_data` (elements/binary_data_array.rs, lines
33-87): decompress, locate the element-type declaration, check the width
divisibility, and map the little-endian chunks to 64-bit float values. -/
def deflateData (b64 : B64Decode) (inflate : ZlibInflate)
    (arr : BinaryDataArray) : Except String (List Nat) :=
  match uncompressedData b64 inflate arr with
  | .error e => .error e
  | .ok ud =>
    match arr.cvParams.find? (fun p =>
        p.accession == "MS:1000521" || p.accession == "MS:1000523") with
    | none => .error "Data type cvParam not found"
    | some typeCvParam =>
      if typeCvParam.accession == "MS:1000521" then
        if ud.length % 4 ≠ 0 then .error "Uncompressed data array is not a multiple of 4"
        else .ok ((listChunks 4 ud).map (fun chunk => f32ToF64Bits (leNat chunk)))
      else if typeCvParam.accession == "MS:1000523" then
        if ud.length % 8 ≠ 0 then .error "Uncompressed data array is not a multiple of 8"
        else .ok ((listChunks 8 ud).map (fun chunk => leNat chunk))
      else .error "Unknown data type cvParam"

/-- C6: given a successful decompression yielding bytes `d` and a located
element-type declaration, decoding partitions `d` into consecutive 4- or
8-byte little-endian chunks (joining back to `d`, each chunk full width),
widening 32-bit values to 64-bit, and fails with the width error exactly
when `d`'s length is not a multiple of the declared width. -/
theorem deflateData_partitions (b64 : B64Decode) (inflate : ZlibInflate)
    (arr : BinaryDataArray) (d : List Nat) (tp : CvParam)
    (hud : uncompressedData b64 inflate arr = .ok d)
    (htp : arr.cvParams.find? (fun p =>
        p.accession == "MS:1000521" || p.accession == "MS:1000523") = some tp) :
    (tp.accession = "MS:1000521" ∨ tp.accession = "MS:1000523") ∧
    (tp.accession = "MS:1000521" →
      (deflateData b64 inflate arr
          = .error "Uncompressed data array is not a multiple of 4" ↔ d.length % 4 ≠ 0) ∧
      (d.length % 4 = 0 →
        deflateData b64 inflate arr
            = .ok ((listChunks 4 d).map (fun c => f32ToF64Bits (leNat c))) ∧
        (listChunks 4 d).flatten = d ∧ ∀ c ∈ listChunks 4 d, c.length = 4)) ∧
    (tp.accession = "MS:1000523" →
      (deflateData b64 inflate arr
          = .error "Uncompressed data array is not a multiple of 8" ↔ d.length % 8 ≠ 0) ∧
      (d.length % 8 = 0 →
        deflateData b64 inflate arr = .ok ((listChunks 8 d).map (fun c => leNat c)) ∧
        (listChunks 8 d).flatten = d ∧ ∀ c ∈ listChunks 8 d, c.length = 8)) := by
  have hacc : (tp.accession == "MS:1000521") = true ∨
      (tp.accession == "MS:1000523") = true := by
    simpa using List.find?_some htp
  refine ⟨by simpa using hacc, ?_, ?_⟩
  · intro h521
    unfold deflateData
    rw [hud, htp]
    dsimp only
    rw [if_pos (by simp [h521])]
    by_cases hm : d.length % 4 = 0
    · rw [if_neg (by omega)]
      refine ⟨by simp [hm], fun _ => ⟨rfl, ?_, ?_⟩⟩
      · exact listChunks_flatten 4 (by omega) d.length d (Nat.le_refl _)
      · exact listChunks_length_mem 4 (by omega) d.length d (Nat.le_refl _) hm
    · rw [if_pos hm]
      exact ⟨by simp [hm], fun h => absurd h hm⟩
  · intro h523
    have hne : tp.accession ≠ "MS:1000521" := by
      rw [h523]; decide
    unfold deflateData
    rw [hud, htp]
    dsimp only
    rw [if_neg (by simp [hne]), if_pos (by simp [h523])]
    by_cases hm : d.length % 8 = 0
    · rw [if_neg (by omega)]
      refine ⟨by simp [hm], fun _ => ⟨rfl, ?_, ?_⟩⟩
      · exact listChunks_flatten 8 (by omega) d.length d (Nat.le_refl _)
      · exact listChunks_length_mem 8 (by omega) d.length d (Nat.le_refl _) hm
    · rw [if_pos hm]
      exact ⟨by simp [hm], fun h => absurd h hm⟩

/-- Base64 stand-in returning the little-endian bytes of `1.0f32, 2.0f32`. -/
def exB64 : B64Decode := fun _ => .ok [0, 0, 128, 63, 0, 0, 0, 64]

/-- Inflate stand-in (identity; unused when compression is "none"). -/
def exInflate : ZlibInflate := fun bytes => .ok bytes

/-- A `binaryDataArray` declaring no compression and 32-bit floats. -/
def exC6Arr : BinaryDataArray :=
  ⟨12, none, none, [mkCvParam "MS:1000576", mkCvParam "MS:1000521"], ⟨"AACAPwAAAEA="⟩⟩

/-- C6 witness: the partition theorem evaluated on a concrete two-element
32-bit payload. -/
theorem c6_witness :
    deflateData exB64 exInflate exC6Arr
        = .ok ((listChunks 4 [0, 0, 128, 63, 0, 0, 0, 64]).map
            (fun c => f32ToF64Bits (leNat c))) ∧
    (listChunks 4 [0, 0, 128, 63, 0, 0, 0, 64]).flatten
        = [0, 0, 128, 63, 0, 0, 0, 64] := by
  have h := deflateData_partitions exB64 exInflate exC6Arr
    [0, 0, 128, 63, 0, 0, 0, 64] (mkCvParam "MS:1000521") rfl rfl
  have h3 := (h.2.1 rfl).2 (by decide)
  exact ⟨h3.1, h3.2.1⟩

/-- C7 amended: when no cvParam carries one of the two recognised
compression accessions, decoding fails with "Compression cvParam not found"
— also when an unrecognised compression kind is declared — and the
"Unknown compression cvParam" branch is unreachable: whenever the
compression lookup succeeds its accession is one of the two recognised
ones, so that branch's guard can never be reached. -/
theorem deflateData_compression_fallthrough (b64 : B64Decode)
    (inflate : ZlibInflate) (arr : BinaryDataArray) :
    (arr.cvParams.find? (fun p =>
        p.accession == "MS:1000574" || p.accession == "MS:1000576") = none →
      deflateData b64 inflate arr = .error "Compression cvParam not found") ∧
    (∀ p, arr.cvParams.find? (fun p =>
        p.accession == "MS:1000574" || p.accession == "MS:1000576") = some p →
      p.accession = "MS:1000574" ∨ p.accession = "MS:1000576") := by
  constructor
  · intro h
    unfold deflateData uncompressedData
    rw [h]
  · intro p hp
    simpa using List.find?_some hp

/-- Base64 stand-in for the C7 fixtures. -/
def exC7B64 : B64Decode := fun _ => .ok []

/-- A `binaryDataArray` declaring the unrecognised compression kind
`MS:1002312` (MS-Numpress linear) and a 64-bit float type. -/
def exC7Arr : BinaryDataArray :=
  ⟨0, none, none, [mkCvParam "MS:1002312", mkCvParam "MS:1000523"], ⟨""⟩⟩

/-- C7 counterexample: a payload declaring only the unrecognised
compression kind `MS:1002312` fails with the same "Compression cvParam not
found" error an element with no compression declaration produces; the
distinct "Unknown compression cvParam" error is not raised, so the two
failure modes are conflated. -/
theorem c7_counterexample :
    deflateData exC7B64 exInflate exC7Arr = .error "Compression cvParam not found" ∧
    ("Compression cvParam not found" : String) ≠ "Unknown compression cvParam" :=
  ⟨rfl, by decide⟩

/-- A `binaryDataArray` with no compression declaration at all. -/
def exC7NoneArr : BinaryDataArray := ⟨0, none, none, [], ⟨""⟩⟩

/-- C7 witness: the amended theorem applied to a payload with no
compression declaration. -/
theorem c7_witness :
    deflateData exC7B64 exInflate exC7NoneArr = .error "Compression cvParam not found" :=
  (deflateData_compression_fallthrough exC7B64 exInflate exC7NoneArr).1 rfl

/-! ## ExtractionWriter checksum splice (`reader.rs`,
`File::extract_spectrum_from_indexed_mzml`, lines 207-243)

The `sha1` crate is an external collaborator; `sha1HexBytes` below is a
bit-level SHA-1 (verified against the standard test vectors) so that the
spliced digest can be computed inside the logic. -/

/-- 32-bit rotate left. -/
def rotl32 (n x : Nat) : Nat :=
  ((x <<< n) ||| (x >>> (32 - n))) % 2 ^ 32

/-- SHA-1 round function. -/
def sha1F (t b c d : Nat) : Nat :=
  if t < 20 then (b &&& c) ||| ((b ^^^ 0xffffffff) &&& d)
  else if t < 40 then b ^^^ c ^^^ d
  else if t < 60 then (b &&& c) ||| (b &&& d) ||| (c &&& d)
  else b ^^^ c ^^^ d

/-- SHA-1 round constants. -/
def sha1K (t : Nat) : Nat :=
  if t < 20 then 0x5a827999
  else if t < 40 then 0x6ed9eba1
  else if t < 60 then 0x8f1bbcdc
  else 0xca62c1d6

/-- Big-endian word from bytes. -/
def be32 (bytes : List Nat) : Nat :=
  bytes.foldl (fun acc b => acc * 256 + b % 256) 0

/-- Big-endian 64-bit length encoding. -/
def be64Bytes (n : Nat) : List Nat :=
  [n / 2 ^ 56 % 256, n / 2 ^ 48 % 256, n / 2 ^ 40 % 256, n / 2 ^ 32 % 256,
   n / 2 ^ 24 % 256, n / 2 ^ 16 % 256, n / 2 ^ 8 % 256, n % 256]

/-- SHA-1 padding: `0x80`, zeros to 56 mod 64, 64-bit bit length. -/
def sha1Pad (msg : List Nat) : List Nat :=
  msg ++ 128 :: List.replicate ((119 - msg.length % 64) % 64) 0
    ++ be64Bytes (msg.length * 8)

/-- Message-schedule extension, most recent word first. -/
def sha1ExtendRev : Nat → List Nat → List Nat
  | 0, acc => acc
  | k + 1, acc =>
    let w := rotl32 1 (acc.getD 2 0 ^^^ acc.getD 7 0 ^^^ acc.getD 13 0 ^^^ acc.getD 15 0)
    sha1ExtendRev k (w :: acc)

/-- The 80 compression rounds. -/
def sha1Rounds : List Nat → Nat → Nat × Nat × Nat × Nat × Nat → Nat × Nat × Nat × Nat × Nat
  | [], _, st => st
  | w :: ws, t, (a, b, c, d, e) =>
    let tmp := (rotl32 5 a + sha1F t b c d + e + sha1K t + w) % 2 ^ 32
    sha1Rounds ws (t + 1) (tmp, a, rotl32 30 b, c, d)

/-- Chunking with explicit fuel (kernel-reducible; with `fuel ≥ length` and
`n > 0` this splits into consecutive `n`-byte chunks). -/
def splitChunks (n : Nat) : Nat → List Nat → List (List Nat)
  | 0, _ => []
  | _, [] => []
  | fuel + 1, a :: l => (a :: l).take n :: splitChunks n fuel (l.drop (n - 1))

/-- One 64-byte SHA-1 block step. -/
def sha1Block (h : Nat × Nat × Nat × Nat × Nat) (block : List Nat) :
    Nat × Nat × Nat × Nat × Nat :=
  let ws := (sha1ExtendRev 64 ((splitChunks 4 block.length block).map be32).reverse).reverse
  let (a, b, c, d, e) := sha1Rounds ws 0 h
  ((h.1 + a) % 2 ^ 32, (h.2.1 + b) % 2 ^ 32, (h.2.2.1 + c) % 2 ^ 32,
   (h.2.2.2.1 + d) % 2 ^ 32, (h.2.2.2.2 + e) % 2 ^ 32)

/-- SHA-1 digest as five 32-bit words. -/
def sha1Words (msg : List Nat) : Nat × Nat × Nat × Nat × Nat :=
  (splitChunks 64 (sha1Pad msg).length (sha1Pad msg)).foldl sha1Block
    (0x67452301, 0xefcdab89, 0x98badcfe, 0x10325476, 0xc3d2e1f0)

/-- Lowercase hexadecimal digit, as a byte. -/
def hexDigit (n : Nat) : Nat := if n < 10 then 48 + n else 87 + n

/-- Eight lowercase hex digits of a 32-bit word, as bytes. -/
def hexWord32 (w : Nat) : List Nat :=
  [hexDigit (w / 2 ^ 28 % 16), hexDigit (w / 2 ^ 24 % 16), hexDigit (w / 2 ^ 20 % 16),
   hexDigit (w / 2 ^ 16 % 16), hexDigit (w / 2 ^ 12 % 16), hexDigit (w / 2 ^ 8 % 16),
   hexDigit (w / 2 ^ 4 % 16), hexDigit (w % 16)]

/-- The lowercase-hex SHA-1 digest of a byte sequence, as bytes — the
`write!(hex_hash, "{:02x}", byte)` loop of the source applied to the
`sha1` crate's digest. -/
def sha1HexBytes (msg : List Nat) : List Nat :=
  match sha1Words msg with
  | (h0, h1, h2, h3, h4) =>
    hexWord32 h0 ++ hexWord32 h1 ++ hexWord32 h2 ++ hexWord32 h3 ++ hexWord32 h4

/-- SHA-1 sanity vector: digest of "abc". -/
theorem sha1_vector_abc :
    sha1HexBytes (strBytes "abc") = strBytes "a9993e364706816aba3e25717850c26c9cd0d89d" := by
  decide

/-- SHA-1 sanity vector: digest of the empty message. -/
theorem sha1_vector_empty :
    sha1HexBytes [] = strBytes "da39a3ee5e6b4b0d3255bfef95601890afd80709" := by
  decide

theorem sha1HexBytes_length (msg : List Nat) : (sha1HexBytes msg).length = 40 := by
  unfold sha1HexBytes
  rcases sha1Words msg with ⟨h0, h1, h2, h3, h4⟩
  simp [hexWord32]

/-- `OPENING_FILECHECKSUM_TAG`. -/
def fcOpenTag : List Nat := strBytes "<fileChecksum>"

/-- `CLOSING_FILECHECKSUM_TAG`. -/
def fcCloseTag : List Nat := strBytes "</fileChecksum>"

/-- The checksum stage of `File::extract_spectrum_from_indexed_mzml`
(reader.rs, lines 207-243), applied to the serialized document after the
index-list-offset splice: locate the checksum element, hash every byte up
to and including the opening `<fileChecksum>` tag (`&xml[..
filechecksum_start_position]`), and splice the lowercase-hex digest over
the element's previous text. -/
def patchChecksum (xml : List Nat) : Except String (List Nat) :=
  match findSub fcOpenTag xml with
  | none => .error "Failed to find `<fileChecksum>` tag"
  | some p =>
    let filechecksumStartPosition := p + fcOpenTag.length
    match findSub fcCloseTag (xml.drop filechecksumStartPosition) with
    | none => .error "Failed to find `</fileChecksum>` tag"
    | some q =>
      let filechecksumEndPosition := q + filechecksumStartPosition
      .ok (xml.take filechecksumStartPosition
        ++ sha1HexBytes (xml.take filechecksumStartPosition)
        ++ xml.drop filechecksumEndPosition)

/-- C4 amended: in the spliced output, the 40 bytes following the first
`<fileChecksum>` occurrence are the lowercase-hex SHA-1 digest of every
output byte up to AND INCLUDING the opening `<fileChecksum>` tag (not of
the bytes strictly preceding the checksum element). -/
theorem patchChecksum_digest (xml out : List Nat)
    (h : patchChecksum xml = .ok out) :
    ∃ p, findSub fcOpenTag out = some p ∧
      (out.drop (p + fcOpenTag.length)).take 40
        = sha1HexBytes (out.take (p + fcOpenTag.length)) := by
  unfold patchChecksum at h
  cases hfo : findSub fcOpenTag xml with
  | none => rw [hfo] at h; exact absurd h (by simp)
  | some p =>
    rw [hfo] at h
    dsimp only at h
    cases hfc : findSub fcCloseTag (xml.drop (p + fcOpenTag.length)) with
    | none => rw [hfc] at h; exact absurd h (by simp)
    | some q =>
      rw [hfc] at h
      dsimp only at h
      have hout : out = xml.take (p + fcOpenTag.length)
          ++ sha1HexBytes (xml.take (p + fcOpenTag.length))
          ++ xml.drop (q + (p + fcOpenTag.length)) := by
        cases h
        rfl
      have hocc : occursAt fcOpenTag xml p := findSub_some_occursAt _ _ _ hfo
      have hple : p + fcOpenTag.length ≤ xml.length :=
        occursAt_length_le _ _ _ (by decide) hocc
      have hpre_len : (xml.take (p + fcOpenTag.length)).length = p + fcOpenTag.length := by
        rw [List.length_take]
        omega
      refine ⟨p, ?_, ?_⟩
      · apply findSub_eq_some_of
        · rw [hout, List.append_assoc, occursAt_prefix_iff _ _ _ _ (by omega),
            occursAt_take_iff _ _ _ _ (Nat.le_refl _)]
          exact hocc
        · intro j hj hcon
          rw [hout, List.append_assoc, occursAt_prefix_iff _ _ _ _ (by omega),
            occursAt_take_iff _ _ _ _ (by omega)] at hcon
          exact findSub_some_min _ _ _ hfo j hj hcon
      · have hdrop : out.drop (p + fcOpenTag.length)
            = sha1HexBytes (xml.take (p + fcOpenTag.length))
              ++ xml.drop (q + (p + fcOpenTag.length)) := by
          rw [hout, List.append_assoc, List.drop_left' hpre_len]
        have htake : out.take (p + fcOpenTag.length) = xml.take (p + fcOpenTag.length) := by
          rw [hout, List.append_assoc, List.take_left' hpre_len]
        rw [hdrop, htake, List.take_left' (sha1HexBytes_length _)]

/-- A serialized indexed document fixture (fresh digest not yet spliced). -/
def exC4Xml : List Nat :=
  strBytes "<a>x</a><fileChecksum>0000000000000000000000000000000000000000</fileChecksum>"

/-- The spliced output for `exC4Xml`. -/
def exC4Out : List Nat :=
  exC4Xml.take 22 ++ sha1HexBytes (exC4Xml.take 22) ++ exC4Xml.drop 62

/-- C4 counterexample: in the spliced output the digest differs from the
SHA-1 digest of the bytes strictly preceding the checksum element (the
hashed prefix also covers the 14 bytes of the opening `<fileChecksum>`
tag itself). -/
theorem c4_counterexample :
    patchChecksum exC4Xml = .ok exC4Out ∧
    findSub fcOpenTag exC4Out = some 8 ∧
    (exC4Out.drop (8 + fcOpenTag.length)).take 40
      ≠ sha1HexBytes (exC4Out.take 8) := by
  refine ⟨rfl, by decide, by decide⟩

/-- A second fixture for the witness. -/
def exC4WXml : List Nat := strBytes "<b><fileChecksum>x</fileChecksum></b>"

/-- The spliced output for `exC4WXml`. -/
def exC4WOut : List Nat :=
  exC4WXml.take 17 ++ sha1HexBytes (exC4WXml.take 17) ++ exC4WXml.drop 18

/-- C4 witness: the amended digest theorem at a concrete document. -/
theorem c4_witness :
    ∃ p, findSub fcOpenTag exC4WOut = some p ∧
      (exC4WOut.drop (p + fcOpenTag.length)).take 40
        = sha1HexBytes (exC4WOut.take (p + fcOpenTag.length)) :=
  patchChecksum_digest exC4WXml exC4WOut rfl

/-! ## Shell extraction and index resolution (`reader.rs`,
`Reader::get_mzml_without_data` / `Reader::read_indexed`; embedded index
decode `impl From<&IndexList> for Index` in index.rs)

quick-xml's tokenizer is an external crate: the embedding consumes the
event list it produces.  Each tag event carries the local name, the raw
event text `e`, the `id` attribute when present, and the value of
`reader.buffer_position()` after the event. -/

/-- `Offset` (elements/offset.rs). -/
structure OffsetEl where
  idRef : String
  value : Nat
deriving DecidableEq

/-- `Index` element (elements/index.rs): one named offset list. -/
structure IndexEl where
  name : String
  offsets : List OffsetEl
deriving DecidableEq

/-- `IndexList` (elements/index_list.rs). -/
structure IndexList where
  count : Nat
  indexes : List IndexEl
deriving DecidableEq

/-- `IndexList::get_index_by_name` (index_list.rs, lines 16-18). -/
def getIndexByName (il : IndexList) (name : String) : Option IndexEl :=
  il.indexes.find? (fun ix => ix.name == name)

/-- `Index` (index.rs): the two id → byte-offset maps. -/
structure MzIndex where
  spectra : List (String × Nat)
  chromatograms : List (String × Nat)
deriving DecidableEq

/-- `impl From<&IndexList> for Index` (index.rs, lines 47-67): collect the
offsets of the indexes named "spectrum" / "chromatogram" into the two maps
(an absent name yields an empty map). -/
def indexFromIndexList (il : IndexList) : MzIndex :=
  let spectrumIndex := match getIndexByName il "spectrum" with
    | some ix => ix.offsets.foldl (fun m o => insertAssoc o.idRef o.value m) []
    | none => []
  let chromatogramIndex := match getIndexByName il "chromatogram" with
    | some ix => ix.offsets.foldl (fun m o => insertAssoc o.idRef o.value m) []
    | none => []
  ⟨spectrumIndex, chromatogramIndex⟩

/-- One tag event as consumed by `get_mzml_without_data`. -/
structure XmlTag where
  name : String
  raw : String
  id : Option String
  bufPos : Nat
deriving DecidableEq

/-- The quick-xml events `get_mzml_without_data` dispatches on (reaching
the end of the list is the `Eof` event). -/
inductive XmlEvent where
  | startEv : XmlTag → XmlEvent
  | endEv : XmlTag → XmlEvent
  | emptyEv : XmlTag → XmlEvent
  | textEv : String → XmlEvent
  | declEv : String → XmlEvent
deriving DecidableEq

/-- Modelled from the spec: `get_id_attributes` is referenced from
`super::indexer` by reader.rs but absent from the available sources; per
the spec it extracts "the value of the literal `id=\"…\"` attribute" of
the record's opening tag, so it yields the event's id attribute and fails
when the attribute is missing. -/
def getIdAttributes (t : XmlTag) : Except String String :=
  match t.id with
  | some v => .ok v
  | none => .error "ID attribute not found"

/-- `reader.buffer_position() as usize - e.len() - 2`: the position of the
`<` of the start tag (reader.rs, lines 450 and 458). -/
def tagStartOffset (t : XmlTag) : Nat :=
  t.bufPos - t.raw.length - 2

/-- The mutable locals of the `get_mzml_without_data` scan loop. -/
structure ShellState where
  isIndexedMzml : Bool
  spectrumOffsets : List (String × Nat)
  chromatogramOffsets : List (String × Nat)
  content : List String
  addContent : Bool
  forceReindex : Bool
deriving DecidableEq

/-- `Reader::push_start_event`. -/
def pushStartEvent (content : List String) (e : String) : List String :=
  content ++ ["<" ++ e ++ ">"]

/-- `Reader::push_end_event`. -/
def pushEndEvent (content : List String) (e : String) : List String :=
  content ++ ["</" ++ e ++ ">"]

/-- `Reader::push_empty_event`. -/
def pushEmptyEvent (content : List String) (e : String) : List String :=
  content ++ ["<" ++ e ++ "/>"]

/-- One `read_event_into` iteration of `Reader::get_mzml_without_data`
(reader.rs, lines 424-506). -/
def shellStep (st : ShellState) (ev : XmlEvent) : Except String ShellState :=
  match ev with
  | .startEv t =>
    if t.name = "indexedmzML" then
      .ok { st with isIndexedMzml := true, content := pushStartEvent st.content t.raw }
    else if t.name = "mzML" then
      .ok { st with
        forceReindex := if st.isIndexedMzml then st.forceReindex else true,
        content := pushStartEvent st.content t.raw }
    else if t.name = "spectrumList" then
      .ok { st with content := pushStartEvent st.content t.raw, addContent := false }
    else if t.name = "chromatogramList" then
      .ok { st with content := pushStartEvent st.content t.raw, addContent := false }
    else if t.name = "spectrum" then
      if st.forceReindex then
        match getIdAttributes t with
        | .error e => .error e
        | .ok id => .ok { st with
            spectrumOffsets := insertAssoc id (tagStartOffset t) st.spectrumOffsets }
      else .ok st
    else if t.name = "chromatogram" then
      if st.forceReindex then
        match getIdAttributes t with
        | .error e => .error e
        | .ok id => .ok { st with
            chromatogramOffsets := insertAssoc id (tagStartOffset t) st.chromatogramOffsets }
      else .ok st
    else
      .ok { st with
        content := if st.addContent then pushStartEvent st.content t.raw else st.content }
  | .endEv t =>
    if t.name = "spectrumList" then
      .ok { st with content := pushEndEvent st.content t.raw, addContent := true }
    else if t.name = "chromatogramList" then
      .ok { st with content := pushEndEvent st.content t.raw, addContent := true }
    else
      .ok { st with
        content := if st.addContent then pushEndEvent st.content t.raw else st.content }
  | .emptyEv t =>
    .ok { st with
      content := if st.addContent then pushEmptyEvent st.content t.raw else st.content }
  | .textEv s =>
    .ok { st with content := if st.addContent then st.content ++ [s] else st.content }
  | .declEv s =>
    .ok { st with
      content := if st.addContent then st.content ++ ["<?" ++ s ++ "?>"] else st.content }

/-- The scan loop, driven until `Eof`. -/
def shellRun : ShellState → List XmlEvent → Except String ShellState
  | st, [] => .ok st
  | st, ev :: rest =>
    match shellStep st ev with
    | .error e => .error e
    | .ok st' => shellRun st' rest

/-- `Reader::get_mzml_without_data` (reader.rs, lines 409-513). -/
def getMzmlWithoutData (events : List XmlEvent) (forceReindex : Bool) :
    Except String (List String × List (String × Nat) × List (String × Nat) × Bool) :=
  match shellRun ⟨false, [], [], [], true, forceReindex⟩ events with
  | .error e => .error e
  | .ok st => .ok (st.content, st.spectrumOffsets, st.chromatogramOffsets, st.isIndexedMzml)

/-- The index-resolution logic of `Reader::read_indexed` (reader.rs, lines
289-331).  Deserializing the shell into `MzML` / `IndexedMzML` values and
the optional validation pass are serde concerns outside this embedding, so
the `IndexList` embedded in an indexed document is a parameter; the
function returns the `Index` the `File` is constructed with. -/
def readIndexedResolveIndex (events : List XmlEvent) (embedded : IndexList)
    (forceReindex : Bool) : Except String MzIndex :=
  match getMzmlWithoutData events forceReindex with
  | .error e => .error e
  | .ok (_, spectrumOffsets, chromatogramOffsets, isIndexedMzml) =>
    if isIndexedMzml then
      if forceReindex then .ok ⟨spectrumOffsets, chromatogramOffsets⟩
      else .ok (indexFromIndexList embedded)
    else .ok ⟨spectrumOffsets, chromatogramOffsets⟩

/-- The event is the opening tag of a bulk record element. -/
def isRecordStartB : XmlEvent → Bool
  | .startEv t => t.name == "spectrum" || t.name == "chromatogram"
  | _ => false

/-- The event is the opening tag of an `indexedmzML` root. -/
def isIndexedStartB : XmlEvent → Bool
  | .startEv t => t.name == "indexedmzML"
  | _ => false

/-- Equality of the whole loop state except the `force_reindex` flag. -/
def sameButForce (s t : ShellState) : Prop :=
  s.isIndexedMzml = t.isIndexedMzml ∧ s.spectrumOffsets = t.spectrumOffsets ∧
  s.chromatogramOffsets = t.chromatogramOffsets ∧ s.content = t.content ∧
  s.addContent = t.addContent

theorem shellStep_nonrecord (ev : XmlEvent) (hrec : isRecordStartB ev = false)
    (hidx : isIndexedStartB ev = false) (s t : ShellState)
    (h : sameButForce s t) (hfalse : s.isIndexedMzml = false) :
    ∃ s' t', shellStep s ev = .ok s' ∧ shellStep t ev = .ok t' ∧
      sameButForce s' t' ∧ s'.isIndexedMzml = false := by
  obtain ⟨si, ss, sc, scont, sadd, sf⟩ := s
  obtain ⟨ti, ts, tc, tcont, tadd, tf⟩ := t
  obtain ⟨h1, h2, h3, h4, h5⟩ := h
  dsimp only at h1 h2 h3 h4 h5 hfalse
  subst h1 h2 h3 h4 h5 hfalse
  cases ev with
  | startEv tag =>
    simp only [isRecordStartB, Bool.or_eq_false_iff, beq_eq_false_iff_ne, ne_eq] at hrec
    simp only [isIndexedStartB, beq_eq_false_iff_ne, ne_eq] at hidx
    obtain ⟨hs, hc⟩ := hrec
    simp only [shellStep, if_neg hidx]
    split_ifs <;>
      first
        | exact absurd (by assumption) hs
        | exact absurd (by assumption) hc
        | exact ⟨_, _, rfl, rfl, by simp [sameButForce], rfl⟩
  | endEv tag =>
    simp only [shellStep]
    split_ifs <;> exact ⟨_, _, rfl, rfl, by simp [sameButForce], rfl⟩
  | emptyEv tag =>
    exact ⟨_, _, rfl, rfl, by simp [sameButForce], rfl⟩
  | textEv str =>
    exact ⟨_, _, rfl, rfl, by simp [sameButForce], rfl⟩
  | declEv str =>
    exact ⟨_, _, rfl, rfl, by simp [sameButForce], rfl⟩

theorem shellStep_mzml_merge (tag : XmlTag) (hmz : tag.name = "mzML")
    (s t : ShellState) (h : sameButForce s t) (hfalse : s.isIndexedMzml = false) :
    ∃ u, shellStep s (.startEv tag) = .ok u ∧ shellStep t (.startEv tag) = .ok u := by
  obtain ⟨si, ss, sc, scont, sadd, sf⟩ := s
  obtain ⟨ti, ts, tc, tcont, tadd, tf⟩ := t
  obtain ⟨h1, h2, h3, h4, h5⟩ := h
  dsimp only at h1 h2 h3 h4 h5 hfalse
  subst h1 h2 h3 h4 h5 hfalse
  have hidx : ¬ tag.name = "indexedmzML" := by rw [hmz]; decide
  refine ⟨ShellState.mk false ss sc (pushStartEvent scont tag.raw) sadd true, ?_, ?_⟩
  · simp [shellStep, if_neg hidx, if_pos hmz]
  · simp [shellStep, if_neg hidx, if_pos hmz]

theorem shellRun_append (s : ShellState) (l1 l2 : List XmlEvent) :
    shellRun s (l1 ++ l2) = match shellRun s l1 with
      | .error e => .error e
      | .ok s' => shellRun s' l2 := by
  induction l1 generalizing s with
  | nil => rfl
  | cons ev rest ih =>
    simp only [List.cons_append, shellRun]
    cases shellStep s ev with
    | error e => rfl
    | ok s' => exact ih s'

theorem shellRun_pre : ∀ (pre : List XmlEvent),
    (∀ ev ∈ pre, isRecordStartB ev = false ∧ isIndexedStartB ev = false) →
    ∀ s t, sameButForce s t → s.isIndexedMzml = false →
    ∃ s' t', shellRun s pre = .ok s' ∧ shellRun t pre = .ok t' ∧
      sameButForce s' t' ∧ s'.isIndexedMzml = false := by
  intro pre
  induction pre with
  | nil => intro _ s t h hfalse; exact ⟨s, t, rfl, rfl, h, hfalse⟩
  | cons ev rest ih =>
    intro hpre s t h hfalse
    obtain ⟨hr, hi⟩ := hpre ev (List.mem_cons_self ev rest)
    obtain ⟨s1, t1, hs1, ht1, h1, hf1⟩ := shellStep_nonrecord ev hr hi s t h hfalse
    obtain ⟨s', t', hs', ht', h', hf'⟩ :=
      ih (fun e he => hpre e (List.mem_cons_of_mem _ he)) s1 t1 h1 hf1
    exact ⟨s', t', by simp [shellRun, hs1, hs'], by simp [shellRun, ht1, ht'], h', hf'⟩

theorem shellStep_isIndexed (s : ShellState) (ev : XmlEvent) (s' : ShellState)
    (h : shellStep s ev = .ok s') (hidx : isIndexedStartB ev = false) :
    s'.isIndexedMzml = s.isIndexedMzml := by
  cases ev with
  | startEv tag =>
    simp only [isIndexedStartB, beq_eq_false_iff_ne, ne_eq] at hidx
    simp only [shellStep, if_neg hidx] at h
    split_ifs at h <;>
      first
        | (cases h; rfl)
        | (cases hg : getIdAttributes tag with
            | error e => rw [hg] at h; cases h
            | ok id => rw [hg] at h; cases h; rfl)
  | endEv tag =>
    simp only [shellStep] at h
    split_ifs at h <;> (cases h; rfl)
  | emptyEv tag =>
    simp only [shellStep] at h
    cases h; rfl
  | textEv str =>
    simp only [shellStep] at h
    cases h; rfl
  | declEv str =>
    simp only [shellStep] at h
    cases h; rfl

theorem shellRun_isIndexed : ∀ (evs : List XmlEvent) (s s' : ShellState),
    shellRun s evs = .ok s' → (∀ ev ∈ evs, isIndexedStartB ev = false) →
    s'.isIndexedMzml = s.isIndexedMzml := by
  intro evs
  induction evs with
  | nil => intro s s' h _; cases h; rfl
  | cons ev rest ih =>
    intro s s' h hidx
    simp only [shellRun] at h
    cases hst : shellStep s ev with
    | error e => rw [hst] at h; cases h
    | ok s1 =>
      rw [hst] at h
      rw [ih s1 s' h (fun e he => hidx e (List.mem_cons_of_mem _ he)),
        shellStep_isIndexed s ev s1 hst (hidx ev (List.mem_cons_self ev rest))]

/-- C10: for a plain (non-indexed) document — an event stream with an
`mzML` start, no `indexedmzML` start anywhere, and no record element
before the root — detecting the plain root promotes reindexing to forced:
`read_indexed` resolves the same Index whether the caller passed
`force_reindex = false` or `true`, and that Index is populated from the
scanned record offsets. -/
theorem readIndexed_plain_forces_scan (events : List XmlEvent) (embedded : IndexList)
    (pre rest : List XmlEvent) (mzTag : XmlTag)
    (hsplit : events = pre ++ XmlEvent.startEv mzTag :: rest)
    (hmz : mzTag.name = "mzML")
    (hpre : ∀ ev ∈ pre, isRecordStartB ev = false ∧ isIndexedStartB ev = false)
    (hnoidx : ∀ ev ∈ events, isIndexedStartB ev = false) :
    readIndexedResolveIndex events embedded false
        = readIndexedResolveIndex events embedded true ∧
    ∀ c sp ch ii, getMzmlWithoutData events true = .ok (c, sp, ch, ii) →
      readIndexedResolveIndex events embedded false = .ok ⟨sp, ch⟩ := by
  have hscan_eq : getMzmlWithoutData events false = getMzmlWithoutData events true := by
    unfold getMzmlWithoutData
    obtain ⟨s1, t1, hs1, ht1, hsb, hf⟩ := shellRun_pre pre hpre
      ⟨false, [], [], [], true, false⟩ ⟨false, [], [], [], true, true⟩
      ⟨rfl, rfl, rfl, rfl, rfl⟩ rfl
    obtain ⟨u, hu1, hu2⟩ := shellStep_mzml_merge mzTag hmz s1 t1 hsb hf
    rw [hsplit, shellRun_append, shellRun_append, hs1, ht1]
    dsimp only
    simp only [shellRun, hu1, hu2]
  have hok : ∀ c sp ch ii, getMzmlWithoutData events true = .ok (c, sp, ch, ii) →
      ii = false := by
    intro c sp ch ii hT
    unfold getMzmlWithoutData at hT
    cases hrun : shellRun ⟨false, [], [], [], true, true⟩ events with
    | error e => rw [hrun] at hT; cases hT
    | ok st =>
      rw [hrun] at hT
      cases hT
      exact shellRun_isIndexed events _ st hrun hnoidx
  constructor
  · unfold readIndexedResolveIndex
    rw [hscan_eq]
    cases hT : getMzmlWithoutData events true with
    | error e => rfl
    | ok quad =>
      obtain ⟨c, sp, ch, ii⟩ := quad
      have hii : ii = false := hok c sp ch ii hT
      subst hii
      rfl
  · intro c sp ch ii hT
    have hii : ii = false := hok c sp ch ii hT
    subst hii
    unfold readIndexedResolveIndex
    rw [hscan_eq, hT]
    rfl

/-- Plain-root fixture: the `mzML` root start event. -/
def exMzTag : XmlTag := ⟨"mzML", "mzML xmlns=\"x\"", none, 60⟩

/-- Plain-root fixture: one spectrum start event. -/
def exSpecTag : XmlTag := ⟨"spectrum", "spectrum id=\"s1\"", some "s1", 100⟩

/-- Plain-root fixture: declaration preceding the root. -/
def exC10Pre : List XmlEvent := [XmlEvent.declEv "xml version=\"1.0\""]

/-- Plain-root fixture: the events after the root start. -/
def exC10Rest : List XmlEvent :=
  [XmlEvent.startEv ⟨"spectrumList", "spectrumList count=\"1\"", none, 83⟩,
   XmlEvent.startEv exSpecTag,
   XmlEvent.endEv ⟨"spectrumList", "spectrumList", none, 160⟩,
   XmlEvent.endEv ⟨"mzML", "mzML", none, 170⟩]

/-- Plain-root fixture: the whole event stream. -/
def exC10Events : List XmlEvent :=
  exC10Pre ++ XmlEvent.startEv exMzTag :: exC10Rest

/-- An embedded index list (irrelevant for a plain document). -/
def exC10Embedded : IndexList := ⟨0, []⟩

/-- C10 witness: on the plain fixture, opening with `force_reindex = false`
resolves the same Index as with `true`, and that Index holds the scanned
spectrum offset. -/
theorem c10_witness :
    readIndexedResolveIndex exC10Events exC10Embedded false
        = readIndexedResolveIndex exC10Events exC10Embedded true ∧
    readIndexedResolveIndex exC10Events exC10Embedded false
        = .ok ⟨[("s1", 82)], []⟩ := by
  have h := readIndexed_plain_forces_scan exC10Events exC10Embedded
    exC10Pre exC10Rest exMzTag rfl rfl (by decide) (by decide)
  exact ⟨h.1, h.2 _ _ _ _ rfl⟩

theorem lookupAssoc_append {α β : Type} [DecidableEq α] (l1 l2 : List (α × β)) (k : α) :
    lookupAssoc (l1 ++ l2) k = match lookupAssoc l1 k with
      | some v => some v
      | none => lookupAssoc l2 k := by
  induction l1 with
  | nil => simp [lookupAssoc]
  | cons p rest ih =>
    by_cases hp : p.1 = k <;> simp [lookupAssoc, hp, ih]

theorem lookupAssoc_foldl_insert {α β : Type} [DecidableEq α] :
    ∀ (pairs m0 : List (α × β)) (k : α),
    lookupAssoc (pairs.foldl (fun m p => insertAssoc p.1 p.2 m) m0) k
      = match lookupAssoc pairs.reverse k with
        | some v => some v
        | none => lookupAssoc m0 k := by
  intro pairs
  induction pairs with
  | nil => intro m0 k; simp [lookupAssoc]
  | cons p rest ih =>
    intro m0 k
    simp only [List.foldl_cons, List.reverse_cons]
    rw [ih, lookupAssoc_append]
    cases lookupAssoc rest.reverse k with
    | some v => rfl
    | none =>
      rw [lookupAssoc_insertAssoc]
      by_cases hp : p.1 = k
      · simp [lookupAssoc, hp]
      · simp [lookupAssoc, hp]

theorem lookupAssoc_eq_some_iff {α β : Type} [DecidableEq α] :
    ∀ (l : List (α × β)), (l.map Prod.fst).Nodup → ∀ (k : α) (v : β),
    (lookupAssoc l k = some v ↔ (k, v) ∈ l) := by
  intro l
  induction l with
  | nil => intro _ k v; simp [lookupAssoc]
  | cons p rest ih =>
    rcases p with ⟨pk, pv⟩
    intro hnd k v
    simp only [List.map_cons, List.nodup_cons] at hnd
    obtain ⟨hnotin, hnd'⟩ := hnd
    by_cases hp : pk = k
    · subst hp
      simp only [lookupAssoc, List.mem_cons]
      rw [if_pos trivial]
      constructor
      · intro hv
        injection hv with hv
        subst hv
        exact Or.inl rfl
      · intro hv
        rcases hv with hv | hv
        · injection hv with hv1 hv2
          rw [hv2]
        · exact absurd (List.mem_map_of_mem Prod.fst hv) hnotin
    · simp only [lookupAssoc, List.mem_cons]
      rw [if_neg hp]
      rw [ih hnd' k v]
      constructor
      · exact Or.inr
      · intro hv
        rcases hv with hv | hv
        · injection hv with hv1 hv2
          exact absurd hv1.symm hp
        · exact hv

theorem lookupAssoc_eq_none_iff {α β : Type} [DecidableEq α] :
    ∀ (l : List (α × β)) (k : α),
    (lookupAssoc l k = none ↔ k ∉ l.map Prod.fst) := by
  intro l
  induction l with
  | nil => intro k; simp [lookupAssoc]
  | cons p rest ih =>
    intro k
    simp only [List.map_cons, List.mem_cons]
    by_cases hp : p.1 = k
    · simp only [lookupAssoc, if_pos hp]
      constructor
      · intro hv; cases hv
      · intro hnot; exact absurd hp.symm (fun hh => hnot (Or.inl hh))
    · simp only [lookupAssoc, if_neg hp]
      rw [ih k]
      constructor
      · intro hnone hmem
        rcases hmem with hmem | hmem
        · exact hp hmem.symm
        · exact hnone hmem
      · intro hnot hmem
        exact hnot (Or.inr hmem)

/-- The `(id, start offset)` pairs of the spectrum start events, in
document order. -/
def specPairs (events : List XmlEvent) : List (String × Nat) :=
  events.filterMap (fun ev => match ev with
    | .startEv t =>
      if t.name = "spectrum" then t.id.map (fun i => (i, tagStartOffset t)) else none
    | _ => none)

/-- The `(id, start offset)` pairs of the chromatogram start events. -/
def chromPairs (events : List XmlEvent) : List (String × Nat) :=
  events.filterMap (fun ev => match ev with
    | .startEv t =>
      if t.name = "chromatogram" then t.id.map (fun i => (i, tagStartOffset t)) else none
    | _ => none)

theorem shellStep_force_preserved (s : ShellState) (ev : XmlEvent) (s' : ShellState)
    (h : shellStep s ev = .ok s') (hf : s.forceReindex = true) :
    s'.forceReindex = true := by
  cases ev with
  | startEv tag =>
    simp only [shellStep] at h
    split_ifs at h <;>
      first
        | (cases h; simp [hf])
        | (cases hg : getIdAttributes tag with
            | error e => rw [hg] at h; cases h
            | ok id => rw [hg] at h; cases h; exact hf)
  | endEv tag =>
    simp only [shellStep] at h
    split_ifs at h <;> (cases h; exact hf)
  | emptyEv tag => simp only [shellStep] at h; cases h; exact hf
  | textEv str => simp only [shellStep] at h; cases h; exact hf
  | declEv str => simp only [shellStep] at h; cases h; exact hf

theorem shellStep_force_offsets (s : ShellState) (ev : XmlEvent) (s' : ShellState)
    (h : shellStep s ev = .ok s') (hf : s.forceReindex = true) :
    s'.spectrumOffsets
        = (specPairs [ev]).foldl (fun m p => insertAssoc p.1 p.2 m) s.spectrumOffsets ∧
    s'.chromatogramOffsets
        = (chromPairs [ev]).foldl (fun m p => insertAssoc p.1 p.2 m) s.chromatogramOffsets := by
  cases ev with
  | startEv tag =>
    simp only [shellStep] at h
    split_ifs at h <;>
      first
        | exact absurd hf (by assumption)
        | (cases h; constructor <;> simp_all [specPairs, chromPairs])
        | (cases hg : getIdAttributes tag with
            | error e => rw [hg] at h; cases h
            | ok id =>
              rw [hg] at h
              cases h
              have hid : tag.id = some id := by
                unfold getIdAttributes at hg
                cases hti : tag.id with
                | none => rw [hti] at hg; cases hg
                | some v => rw [hti] at hg; cases hg; rfl
              constructor <;> simp_all [specPairs, chromPairs])
  | endEv tag =>
    simp only [shellStep] at h
    split_ifs at h <;> (cases h; simp [specPairs, chromPairs])
  | emptyEv tag => simp only [shellStep] at h; cases h; simp [specPairs, chromPairs]
  | textEv str => simp only [shellStep] at h; cases h; simp [specPairs, chromPairs]
  | declEv str => simp only [shellStep] at h; cases h; simp [specPairs, chromPairs]

theorem specPairs_cons (ev : XmlEvent) (rest : List XmlEvent) :
    specPairs (ev :: rest) = specPairs [ev] ++ specPairs rest := by
  cases ev with
  | startEv t =>
    simp only [specPairs, List.filterMap_cons]
    cases (if t.name = "spectrum" then t.id.map (fun i => (i, tagStartOffset t)) else none) <;>
      simp
  | endEv t => simp [specPairs, List.filterMap_cons]
  | emptyEv t => simp [specPairs, List.filterMap_cons]
  | textEv str => simp [specPairs, List.filterMap_cons]
  | declEv str => simp [specPairs, List.filterMap_cons]

theorem chromPairs_cons (ev : XmlEvent) (rest : List XmlEvent) :
    chromPairs (ev :: rest) = chromPairs [ev] ++ chromPairs rest := by
  cases ev with
  | startEv t =>
    simp only [chromPairs, List.filterMap_cons]
    cases (if t.name = "chromatogram" then t.id.map (fun i => (i, tagStartOffset t)) else none) <;>
      simp
  | endEv t => simp [chromPairs, List.filterMap_cons]
  | emptyEv t => simp [chromPairs, List.filterMap_cons]
  | textEv str => simp [chromPairs, List.filterMap_cons]
  | declEv str => simp [chromPairs, List.filterMap_cons]

/-- With `force_reindex` set, the scan loop's maps are the left fold of the
replacing insert over the record events' `(id, offset)` pairs. -/
theorem shellRun_force_scan : ∀ (evs : List XmlEvent) (s st' : ShellState),
    s.forceReindex = true → shellRun s evs = .ok st' →
    st'.spectrumOffsets
        = (specPairs evs).foldl (fun m p => insertAssoc p.1 p.2 m) s.spectrumOffsets ∧
    st'.chromatogramOffsets
        = (chromPairs evs).foldl (fun m p => insertAssoc p.1 p.2 m) s.chromatogramOffsets := by
  intro evs
  induction evs with
  | nil =>
    intro s st' _ h
    cases h
    exact ⟨rfl, rfl⟩
  | cons ev rest ih =>
    intro s st' hf h
    simp only [shellRun] at h
    cases hst : shellStep s ev with
    | error e => rw [hst] at h; cases h
    | ok s1 =>
      rw [hst] at h
      have hf1 := shellStep_force_preserved s ev s1 hst hf
      obtain ⟨he1, he2⟩ := shellStep_force_offsets s ev s1 hst hf
      obtain ⟨hr1, hr2⟩ := ih s1 st' hf1 h
      constructor
      · rw [specPairs_cons, List.foldl_append, hr1, he1]
      · rw [chromPairs_cons, List.foldl_append, hr2, he2]

/-- The `(idRef, value)` entries of the index named `name` in an embedded
`IndexList` (empty when absent), in their stored order. -/
def embeddedPairs (il : IndexList) (name : String) : List (String × Nat) :=
  match getIndexByName il name with
  | some ix => ix.offsets.map (fun o => (o.idRef, o.value))
  | none => []

theorem lookup_indexFromIndexList_spectra (il : IndexList) (k : String) :
    lookupAssoc (indexFromIndexList il).spectra k
      = lookupAssoc (embeddedPairs il "spectrum").reverse k := by
  unfold indexFromIndexList embeddedPairs
  cases getIndexByName il "spectrum" with
  | none => simp [lookupAssoc]
  | some ix =>
    dsimp only
    rw [show ix.offsets.foldl (fun m o => insertAssoc o.idRef o.value m) []
        = (ix.offsets.map (fun o => (o.idRef, o.value))).foldl
            (fun m p => insertAssoc p.1 p.2 m) [] from by
      rw [List.foldl_map]]
    rw [lookupAssoc_foldl_insert]
    cases lookupAssoc (ix.offsets.map (fun o => (o.idRef, o.value))).reverse k with
    | some v => rfl
    | none => rfl

theorem lookup_indexFromIndexList_chroms (il : IndexList) (k : String) :
    lookupAssoc (indexFromIndexList il).chromatograms k
      = lookupAssoc (embeddedPairs il "chromatogram").reverse k := by
  unfold indexFromIndexList embeddedPairs
  cases getIndexByName il "chromatogram" with
  | none => simp [lookupAssoc]
  | some ix =>
    dsimp only
    rw [show ix.offsets.foldl (fun m o => insertAssoc o.idRef o.value m) []
        = (ix.offsets.map (fun o => (o.idRef, o.value))).foldl
            (fun m p => insertAssoc p.1 p.2 m) [] from by
      rw [List.foldl_map]]
    rw [lookupAssoc_foldl_insert]
    cases lookupAssoc (ix.offsets.map (fun o => (o.idRef, o.value))).reverse k with
    | some v => rfl
    | none => rfl

/-- Lookup agreement of two association lists that are permutations of each
other with duplicate-free keys. -/
theorem lookupAssoc_perm_eq {α β : Type} [DecidableEq α]
    (l1 l2 : List (α × β)) (hperm : l1.Perm l2)
    (hnd : (l2.map Prod.fst).Nodup) (k : α) :
    lookupAssoc l1 k = lookupAssoc l2 k := by
  have hnd1 : (l1.map Prod.fst).Nodup := ((hperm.map Prod.fst).nodup_iff).mpr hnd
  cases h2 : lookupAssoc l2 k with
  | some v =>
    have hmem : (k, v) ∈ l1 := hperm.mem_iff.mpr ((lookupAssoc_eq_some_iff l2 hnd k v).mp h2)
    exact (lookupAssoc_eq_some_iff l1 hnd1 k v).mpr hmem
  | none =>
    refine (lookupAssoc_eq_none_iff l1 k).mpr ?_
    intro hmem
    exact (lookupAssoc_eq_none_iff l2 k).mp h2
      (((hperm.map Prod.fst).mem_iff).mp hmem)

/-- C5: for an indexed-variant event stream whose embedded index list
correctly describes the byte layout — its "spectrum" / "chromatogram"
entries are, up to order, exactly the record events' `(id, offset)` pairs,
with duplicate-free ids — opening with reuse of the embedded copy and
opening with a forced full rescan resolve to Index values agreeing on
every spectrum and chromatogram key (same keys, same offsets). -/
theorem readIndexed_embedded_matches_rescan
    (events : List XmlEvent) (embedded : IndexList)
    (c c' : List String) (sp ch sp' ch' : List (String × Nat))
    (hscanT : getMzmlWithoutData events true = .ok (c, sp, ch, true))
    (hscanF : getMzmlWithoutData events false = .ok (c', sp', ch', true))
    (hSpecPerm : (embeddedPairs embedded "spectrum").Perm (specPairs events))
    (hChromPerm : (embeddedPairs embedded "chromatogram").Perm (chromPairs events))
    (hSpecNodup : ((specPairs events).map Prod.fst).Nodup)
    (hChromNodup : ((chromPairs events).map Prod.fst).Nodup) :
    readIndexedResolveIndex events embedded false = .ok (indexFromIndexList embedded) ∧
    readIndexedResolveIndex events embedded true = .ok ⟨sp, ch⟩ ∧
    (∀ k, lookupAssoc (indexFromIndexList embedded).spectra k = lookupAssoc sp k) ∧
    (∀ k, lookupAssoc (indexFromIndexList embedded).chromatograms k
        = lookupAssoc ch k) := by
  have hchar : sp = (specPairs events).foldl (fun m p => insertAssoc p.1 p.2 m) [] ∧
      ch = (chromPairs events).foldl (fun m p => insertAssoc p.1 p.2 m) [] := by
    unfold getMzmlWithoutData at hscanT
    cases hrun : shellRun ⟨false, [], [], [], true, true⟩ events with
    | error e => rw [hrun] at hscanT; cases hscanT
    | ok st =>
      rw [hrun] at hscanT
      obtain ⟨h1, h2⟩ := shellRun_force_scan events _ st rfl hrun
      injection hscanT with hq
      simp only [Prod.mk.injEq] at hq
      exact ⟨hq.2.1 ▸ h1, hq.2.2.1 ▸ h2⟩
  obtain ⟨hsp, hch⟩ := hchar
  refine ⟨?_, ?_, ?_, ?_⟩
  · unfold readIndexedResolveIndex
    rw [hscanF]
    rfl
  · unfold readIndexedResolveIndex
    rw [hscanT]
    rfl
  · intro k
    rw [lookup_indexFromIndexList_spectra, hsp, lookupAssoc_foldl_insert]
    have hperm2 : (embeddedPairs embedded "spectrum").reverse.Perm
        (specPairs events).reverse :=
      ((List.reverse_perm _).trans hSpecPerm).trans (List.reverse_perm _).symm
    have hrevnd : ((specPairs events).reverse.map Prod.fst).Nodup := by
      rw [List.map_reverse]
      exact List.nodup_reverse.mpr hSpecNodup
    rw [lookupAssoc_perm_eq _ _ hperm2 hrevnd k]
    cases hx : lookupAssoc (specPairs events).reverse k with
    | some v => rfl
    | none => rfl
  · intro k
    rw [lookup_indexFromIndexList_chroms, hch, lookupAssoc_foldl_insert]
    have hperm2 : (embeddedPairs embedded "chromatogram").reverse.Perm
        (chromPairs events).reverse :=
      ((List.reverse_perm _).trans hChromPerm).trans (List.reverse_perm _).symm
    have hrevnd : ((chromPairs events).reverse.map Prod.fst).Nodup := by
      rw [List.map_reverse]
      exact List.nodup_reverse.mpr hChromNodup
    rw [lookupAssoc_perm_eq _ _ hperm2 hrevnd k]
    cases hx : lookupAssoc (chromPairs events).reverse k with
    | some v => rfl
    | none => rfl

/-- Indexed-variant fixture: the `indexedmzML` root. -/
def exIdxTag : XmlTag := ⟨"indexedmzML", "indexedmzML xmlns=\"y\"", none, 30⟩

/-- Indexed-variant fixture: two spectra. -/
def exC5Events : List XmlEvent :=
  [XmlEvent.startEv exIdxTag,
   XmlEvent.startEv ⟨"mzML", "mzML", none, 37⟩,
   XmlEvent.startEv ⟨"spectrumList", "spectrumList count=\"2\"", none, 70⟩,
   XmlEvent.startEv ⟨"spectrum", "spectrum id=\"s1\"", some "s1", 110⟩,
   XmlEvent.startEv ⟨"spectrum", "spectrum id=\"s2\"", some "s2", 210⟩,
   XmlEvent.endEv ⟨"spectrumList", "spectrumList", none, 240⟩,
   XmlEvent.endEv ⟨"mzML", "mzML", none, 250⟩,
   XmlEvent.endEv ⟨"indexedmzML", "indexedmzML", none, 280⟩]

/-- Indexed-variant fixture: the embedded index list describing the
layout. -/
def exC5Embedded : IndexList :=
  ⟨2, [⟨"spectrum", [⟨"s1", 92⟩, ⟨"s2", 192⟩]⟩, ⟨"chromatogram", []⟩]⟩

/-- C5 witness: reuse of the embedded copy and forced rescan agree on the
fixture's keys. -/
theorem c5_witness :
    readIndexedResolveIndex exC5Events exC5Embedded false
        = .ok (indexFromIndexList exC5Embedded) ∧
    readIndexedResolveIndex exC5Events exC5Embedded true
        = .ok ⟨[("s2", 192), ("s1", 92)], []⟩ ∧
    lookupAssoc (indexFromIndexList exC5Embedded).spectra "s1"
        = lookupAssoc [("s2", 192), ("s1", 92)] "s1" ∧
    lookupAssoc (indexFromIndexList exC5Embedded).spectra "s2"
        = lookupAssoc [("s2", 192), ("s1", 92)] "s2" := by
  have h := readIndexed_embedded_matches_rescan exC5Events exC5Embedded
    _ _ _ _ _ _ rfl rfl (by decide) (by decide) (by decide) (by decide)
  exact ⟨h.1, h.2.1, h.2.2.1 "s1", h.2.2.1 "s2"⟩

/-! ## Spectrum extraction worklist (`reader.rs`, `File::extract_spectrum`
lines 96-124, and `File::extract_spectrum_from_mzml` lines 126-139)

`File::get_spectrum` seeks to the indexed offset and deserializes one
element; seek + serde are external, so the fetch enters as a function from
ids to parsed `Spectrum` values (failing like `get_spectrum` on unknown
ids).  Rust's `sort_by` is a stable merge sort; it is modelled by
`List.mergeSort` with the same comparator. -/

/-- Outcome of a Rust computation that can also panic or diverge. -/
inductive RustResult (α : Type) where
  | ok : α → RustResult α
  | err : String → RustResult α
  | panicked : RustResult α
  | outOfFuel : RustResult α
deriving DecidableEq

/-- `Precursor` (elements/precursor.rs); only the parent-spectrum
reference is consulted by the worklist (`precursor.spectrum_ref`). -/
structure Precursor where
  spectrumRef : String
deriving DecidableEq

/-- `PrecursorList` (elements/precursor_list.rs). -/
structure PrecursorList where
  count : Nat
  precursors : List Precursor
deriving DecidableEq

/-- `Spectrum` (elements/spectrum.rs); the nested `scanList` and
`binaryDataArrayList` children ride along unchanged through extraction and
are not modelled. -/
structure Spectrum where
  index : Nat
  id : String
  defaultArrayLength : String
  cvParams : List CvParam
  precursorList : Option PrecursorList
deriving DecidableEq

/-- `SpectrumList` (elements/spectrum_list.rs). -/
structure SpectrumList where
  count : Nat
  defaultDataProcessingRef : String
  spectra : List Spectrum
deriving DecidableEq

/-- `File::get_spectrum`, abstracted over seek + deserialize. -/
def GetSpectrumFn : Type := String → Except String Spectrum

/-- The `while let Some(id) = next_spec_ids.pop()` worklist of
`File::extract_spectrum` (lines 101-114).  `Vec::push` / `Vec::pop` work at
the back of the vector; the embedding keeps the stack top at the head and
pushes a precursor list by left-folding `cons`, which yields the same pop
order.  The source loop has no termination guarantee (a precursor-reference
cycle loops forever), so it takes fuel. -/
def collectSpectra (fetch : GetSpectrumFn) (includeParents : Bool) :
    Nat → List String → List Spectrum → RustResult (List Spectrum)
  | 0, _, _ => .outOfFuel
  | _, [], spectra => .ok spectra
  | fuel + 1, spectrumId :: stack, spectra =>
    match fetch spectrumId with
    | .error e => .err e
    | .ok spectrum =>
      let stack' := if includeParents then
          match spectrum.precursorList with
          | some pl => pl.precursors.foldl (fun s p => p.spectrumRef :: s) stack
          | none => stack
        else stack
      collectSpectra fetch includeParents fuel stack' (spectra ++ [spectrum])

/-- The comparator of `spectra.sort_by(|x, y| x.index.cmp(&y.index))`. -/
def spectrumLe (x y : Spectrum) : Bool := decide (x.index ≤ y.index)

/-- `File::extract_spectrum` composed with
`File::extract_spectrum_from_mzml`'s record-list replacement: collect the
requested spectra, sort them by ordinal, and install them (with the
updated count) in the document's spectrum list.  Serialization of the
resulting document is an external serde concern. -/
def extractSpectrumList (fetch : GetSpectrumFn) (includeParents : Bool)
    (fuel : Nat) (spectrumId : String) (old : SpectrumList) :
    RustResult SpectrumList :=
  match collectSpectra fetch includeParents fuel [spectrumId] [] with
  | .ok spectra =>
    let sorted := spectra.mergeSort spectrumLe
    .ok { old with count := sorted.length, spectra := sorted }
  | .err e => .err e
  | .panicked => .panicked
  | .outOfFuel => .outOfFuel

/-- Two sorted lists that are permutations of each other and whose ordinal
key is injective on their elements are equal. -/
theorem sorted_perm_eq_of_index_inj :
    ∀ (l1 l2 : List Spectrum), l1.Perm l2 →
    List.Pairwise (fun a b : Spectrum => a.index ≤ b.index) l1 →
    List.Pairwise (fun a b : Spectrum => a.index ≤ b.index) l2 →
    (∀ a ∈ l1, ∀ b ∈ l1, a.index = b.index → a = b) →
    l1 = l2 := by
  intro l1
  induction l1 with
  | nil =>
    intro l2 hperm _ _ _
    exact hperm.nil_eq
  | cons a t1 ih =>
    intro l2 hperm hs1 hs2 hinj
    cases l2 with
    | nil => exact absurd hperm.symm.nil_eq (by simp)
    | cons b t2 =>
      have hab : a = b := by
        have ha2 : a ∈ b :: t2 := hperm.mem_iff.mp (List.mem_cons_self a t1)
        have hb1 : b ∈ a :: t1 := hperm.mem_iff.mpr (List.mem_cons_self b t2)
        rcases List.mem_cons.mp ha2 with h | h
        · exact h
        · rcases List.mem_cons.mp hb1 with h' | h'
          · exact h'.symm
          · have h1 : a.index ≤ b.index := (List.pairwise_cons.mp hs1).1 b h'
            have h2 : b.index ≤ a.index := (List.pairwise_cons.mp hs2).1 a h
            exact hinj a (List.mem_cons_self a t1) b (List.mem_cons_of_mem a h')
              (Nat.le_antisymm h1 h2)
      subst hab
      have hperm' : t1.Perm t2 := hperm.cons_inv
      rw [ih t2 hperm' (List.pairwise_cons.mp hs1).2 (List.pairwise_cons.mp hs2).2
        (fun x hx y hy hxy =>
          hinj x (List.mem_cons_of_mem a hx) y (List.mem_cons_of_mem a hy) hxy)]

/-- C9: on a successful extraction, the emitted record list is exactly the
collected spectra sorted by their ordinal index ascending (a permutation of
the collected list, pairwise sorted), the count field is the number of
collected spectra, and — when the ordinal key is injective on the
collection — the output is the same for every traversal order of the
collected spectra. -/
theorem extractSpectrumList_sorted (fetch : GetSpectrumFn)
    (includeParents : Bool) (fuel : Nat) (spectrumId : String)
    (old : SpectrumList) (collected : List Spectrum) (out : SpectrumList)
    (hcol : collectSpectra fetch includeParents fuel [spectrumId] [] = .ok collected)
    (hout : extractSpectrumList fetch includeParents fuel spectrumId old = .ok out) :
    out.spectra = collected.mergeSort spectrumLe ∧
    out.spectra.Perm collected ∧
    List.Pairwise (fun a b : Spectrum => a.index ≤ b.index) out.spectra ∧
    out.count = collected.length ∧
    out.defaultDataProcessingRef = old.defaultDataProcessingRef ∧
    (∀ collected' : List Spectrum, collected'.Perm collected →
      (∀ a ∈ collected, ∀ b ∈ collected, a.index = b.index → a = b) →
      collected'.mergeSort spectrumLe = out.spectra) := by
  unfold extractSpectrumList at hout
  rw [hcol] at hout
  cases hout
  have hperm : (collected.mergeSort spectrumLe).Perm collected :=
    List.mergeSort_perm collected spectrumLe
  have hsorted : List.Pairwise (fun a b : Spectrum => a.index ≤ b.index)
      (collected.mergeSort spectrumLe) := by
    have h := @List.sorted_mergeSort Spectrum spectrumLe
      (fun a b c hab hbc => by
        simp only [spectrumLe, decide_eq_true_eq] at hab hbc ⊢
        omega)
      (fun a b => by
        simp only [spectrumLe, Bool.or_eq_true, decide_eq_true_eq]
        omega)
      collected
    exact h.imp (fun hab => by
      simpa only [spectrumLe, decide_eq_true_eq] using hab)
  refine ⟨rfl, hperm, hsorted, hperm.length_eq, rfl, ?_⟩
  intro collected' hperm' hinj
  have hsorted' : List.Pairwise (fun a b : Spectrum => a.index ≤ b.index)
      (collected'.mergeSort spectrumLe) := by
    have h := @List.sorted_mergeSort Spectrum spectrumLe
      (fun a b c hab hbc => by
        simp only [spectrumLe, decide_eq_true_eq] at hab hbc ⊢
        omega)
      (fun a b => by
        simp only [spectrumLe, Bool.or_eq_true, decide_eq_true_eq]
        omega)
      collected'
    exact h.imp (fun hab => by
      simpa only [spectrumLe, decide_eq_true_eq] using hab)
  apply sorted_perm_eq_of_index_inj _ _
    (((List.mergeSort_perm collected' spectrumLe).trans hperm').trans hperm.symm)
    hsorted' hsorted
  intro a ha b hb hab
  exact hinj a (((List.mergeSort_perm collected' spectrumLe).trans hperm').mem_iff.mp ha)
    b (((List.mergeSort_perm collected' spectrumLe).trans hperm').mem_iff.mp hb) hab

/-- Extraction fixture: the parent (MS1) spectrum, ordinal 2. -/
def exSpecParent : Spectrum := ⟨2, "p1", "0", [], none⟩

/-- Extraction fixture: the target (MS2) spectrum, ordinal 5, referencing
`p1` as precursor. -/
def exSpecTarget : Spectrum := ⟨5, "s2", "0", [], some ⟨1, [⟨"p1"⟩]⟩⟩

/-- Extraction fixture: the file's id → spectrum mapping. -/
def exFetch : GetSpectrumFn := fun spectrumId =>
  if spectrumId = "s2" then .ok exSpecTarget
  else if spectrumId = "p1" then .ok exSpecParent
  else .error "Spectrum not found"

/-- C9 witness: extracting `s2` with ancestors collects `[s2, p1]` and
emits them sorted by ordinal with the count updated. -/
theorem c9_witness :
    extractSpectrumList exFetch true 5 "s2" ⟨0, "dp1", []⟩
        = .ok ⟨([exSpecTarget, exSpecParent].mergeSort spectrumLe).length, "dp1",
            [exSpecTarget, exSpecParent].mergeSort spectrumLe⟩ ∧
    ([exSpecTarget, exSpecParent].mergeSort spectrumLe).Perm
        [exSpecTarget, exSpecParent] ∧
    List.Pairwise (fun a b : Spectrum => a.index ≤ b.index)
        ([exSpecTarget, exSpecParent].mergeSort spectrumLe) ∧
    ([exSpecTarget, exSpecParent].mergeSort spectrumLe).length = 2 := by
  have h := extractSpectrumList_sorted exFetch true 5 "s2" ⟨0, "dp1", []⟩
    [exSpecTarget, exSpecParent]
    ⟨([exSpecTarget, exSpecParent].mergeSort spectrumLe).length, "dp1",
      [exSpecTarget, exSpecParent].mergeSort spectrumLe⟩
    rfl rfl
  exact ⟨rfl, h.2.1, h.2.2.1, h.2.2.2.1⟩

/-! ## Streaming byte-offset indexer (`indexer.rs`)

The indexer reads fixed-size chunks from a seekable stream; the stream is
the byte list `input`, and `read` returns the next `min bufSize
(remaining)` bytes.  Keys are kept as byte lists (the source converts them
to `String` with the lossless-on-ASCII `from_utf8_lossy`).  Both unbounded
`loop`s take fuel; the checked `usize` subtractions surface as
`RustResult.panicked`. -/

/-- `SPECTRUM_START_TAG`. -/
def SPECTRUM_START_TAG : List Nat := strBytes "<spectrum "

/-- `SPECTRUM_END_TAG`. -/
def SPECTRUM_END_TAG : List Nat := strBytes "</spectrum>"

/-- `CHROMATOGRAM_START_TAG`. -/
def CHROMATOGRAM_START_TAG : List Nat := strBytes "<chromatogram "

/-- `CHROMATOGRAM_END_TAG`. -/
def CHROMATOGRAM_END_TAG : List Nat := strBytes "</chromatogram>"

/-- `SPECTRUM_ID_START`. -/
def SPECTRUM_ID_START : List Nat := strBytes "id=\""

/-- `ATTRIBUTE_END`. -/
def ATTRIBUTE_END : List Nat := strBytes "\""

/-- The indexer's stream-side state: `file_position` and the buffered
`content` (the `buffer` scratch vector is subsumed by `readChunk`). -/
structure IdxState where
  pos : Nat
  content : List Nat
deriving DecidableEq

/-- `Indexer::read_chunk`: read the next chunk, advance `file_position`,
and append the bytes to `content`; returns the byte count. -/
def readChunk (input : List Nat) (bufSize : Nat) (st : IdxState) : Nat × IdxState :=
  let chunk := (input.drop st.pos).take bufSize
  (chunk.length, ⟨st.pos + chunk.length, st.content ++ chunk⟩)

/-- `Indexer::find_closing_tag` (indexer.rs, lines 74-88).  The
`self.content.len() - search_for.len()` subtraction is checked
(`.panicked` on underflow); the `content.is_empty()` check is evaluated
after the chunk read, exactly as in the source. -/
def findClosingTag (input : List Nat) (bufSize : Nat) :
    Nat → IdxState → Nat → List Nat → RustResult (IdxState × Nat)
  | 0, _, _, _ => .outOfFuel
  | fuel + 1, st, searchOffset, pat =>
    match findSub pat (st.content.drop searchOffset) with
    | some position => .ok (st, searchOffset + position + pat.length)
    | none =>
      if st.content.length < pat.length then .panicked
      else
        let so := st.content.length - pat.length
        let r := readChunk input bufSize st
        if r.2.content.isEmpty then .err "Closing tag not found."
        else findClosingTag input bufSize fuel r.2 so pat

/-- `Indexer::get_spectrum_id` (indexer.rs, lines 95-114): the value of
the first literal `id="` occurrence, up to the next `"`. -/
def getSpectrumId (plainSpectrum : List Nat) : Except String (List Nat) :=
  match findSub SPECTRUM_ID_START plainSpectrum with
  | none => .error "Spectrum ID attribute start not found."
  | some position =>
    let specIdStartIdx := position + SPECTRUM_ID_START.length
    match findSub ATTRIBUTE_END (plainSpectrum.drop specIdStartIdx) with
    | none => .error "Spectrum ID attribute end not found."
    | some position2 => .ok ((plainSpectrum.drop specIdStartIdx).take position2)

/-- `Indexer::foo` (indexer.rs, lines 116-146): search for an opening
marker from the current offset; on a hit record the absolute offset,
scan to the closing marker, extract the id, insert, drain the element,
and reset the search offset. -/
def fooStep (input : List Nat) (bufSize fuel : Nat) (startTag endTag : List Nat)
    (st : IdxState) (searchOffset : Nat) (offsets : List (List Nat × Nat)) :
    RustResult (Bool × IdxState × Nat × List (List Nat × Nat)) :=
  match findSub startTag (st.content.drop searchOffset) with
  | none => .ok (false, st, searchOffset, offsets)
  | some position =>
    let relativeStartOffset := searchOffset + position
    let absolutStartOffset := st.pos - st.content.length + relativeStartOffset
    match findClosingTag input bufSize fuel st relativeStartOffset endTag with
    | .ok (st', relativeEndOffset) =>
      match getSpectrumId ((st'.content.drop relativeStartOffset).take
          (relativeEndOffset - relativeStartOffset)) with
      | .error e => .err e
      | .ok tagId =>
        .ok (true, ⟨st'.pos, st'.content.drop relativeEndOffset⟩, 0,
          insertAssoc tagId absolutStartOffset offsets)
    | .err e => .err e
    | .panicked => .panicked
    | .outOfFuel => .outOfFuel

/-- `Indexer::create_idx` (indexer.rs, lines 150-183): the chunked scan
loop; one iteration reads a chunk, tries the spectrum marker, then the
chromatogram marker, advances the search offset (checked subtraction) and
stops on a zero-byte read. -/
def createIdxLoop (input : List Nat) (bufSize : Nat) :
    Nat → IdxState → Nat → List (List Nat × Nat) → List (List Nat × Nat) →
    RustResult (List (List Nat × Nat) × List (List Nat × Nat))
  | 0, _, _, _, _ => .outOfFuel
  | fuel + 1, st, searchOffset, spectraOffsets, chromatogramOffsets =>
    let r := readChunk input bufSize st
    match fooStep input bufSize fuel SPECTRUM_START_TAG SPECTRUM_END_TAG r.2
        searchOffset spectraOffsets with
    | .ok (true, st2, so2, spectraOffsets2) =>
      createIdxLoop input bufSize fuel st2 so2 spectraOffsets2 chromatogramOffsets
    | .ok (false, st2, so2, spectraOffsets2) =>
      match fooStep input bufSize fuel CHROMATOGRAM_START_TAG CHROMATOGRAM_END_TAG
          st2 so2 chromatogramOffsets with
      | .ok (true, st3, so3, chromatogramOffsets3) =>
        createIdxLoop input bufSize fuel st3 so3 spectraOffsets2 chromatogramOffsets3
      | .ok (false, st3, so3, chromatogramOffsets3) =>
        if st3.content.length < CHROMATOGRAM_END_TAG.length then .panicked
        else
          let so4 := st3.content.length - CHROMATOGRAM_END_TAG.length
          if r.1 = 0 then .ok (spectraOffsets2, chromatogramOffsets3)
          else createIdxLoop input bufSize fuel st3 so4 spectraOffsets2 chromatogramOffsets3
      | .err e => .err e
      | .panicked => .panicked
      | .outOfFuel => .outOfFuel
    | .err e => .err e
    | .panicked => .panicked
    | .outOfFuel => .outOfFuel

/-- `Indexer::create_index` / `create_idx` from a fresh state (the
initial `seek(Start(0))`). -/
def createIdx (fuel : Nat) (input : List Nat) (bufSize : Nat) :
    RustResult (List (List Nat × Nat) × List (List Nat × Nat)) :=
  createIdxLoop input bufSize fuel ⟨0, []⟩ 0 [] []

theorem findSub_none_drop (pat l : List Nat) (k : Nat)
    (h : findSub pat l = none) : findSub pat (l.drop k) = none := by
  rw [findSub_none_iff] at h ⊢
  intro j
  rw [occursAt_drop_iff]
  exact h (k + j)

/-- One-step unfolding of the scan loop. -/
theorem createIdxLoop_succ (input : List Nat) (bufSize fuel : Nat) (st : IdxState)
    (so : Nat) (sp ch : List (List Nat × Nat)) :
    createIdxLoop input bufSize (fuel + 1) st so sp ch
      = match fooStep input bufSize fuel SPECTRUM_START_TAG SPECTRUM_END_TAG
            (readChunk input bufSize st).2 so sp with
        | .ok (true, st2, so2, sp2) => createIdxLoop input bufSize fuel st2 so2 sp2 ch
        | .ok (false, st2, so2, sp2) =>
          match fooStep input bufSize fuel CHROMATOGRAM_START_TAG CHROMATOGRAM_END_TAG
              st2 so2 ch with
          | .ok (true, st3, so3, ch3) => createIdxLoop input bufSize fuel st3 so3 sp2 ch3
          | .ok (false, st3, so3, ch3) =>
            if st3.content.length < CHROMATOGRAM_END_TAG.length then .panicked
            else if (readChunk input bufSize st).1 = 0 then .ok (sp2, ch3)
            else createIdxLoop input bufSize fuel st3
              (st3.content.length - CHROMATOGRAM_END_TAG.length) sp2 ch3
          | .err e => .err e
          | .panicked => .panicked
          | .outOfFuel => .outOfFuel
        | .err e => .err e
        | .panicked => .panicked
        | .outOfFuel => .outOfFuel := rfl

theorem fooStep_none (input : List Nat) (bufSize fuel : Nat)
    (startTag endTag : List Nat) (st : IdxState) (so : Nat)
    (offs : List (List Nat × Nat))
    (hnone : findSub startTag (st.content.drop so) = none) :
    fooStep input bufSize fuel startTag endTag st so offs = .ok (false, st, so, offs) := by
  unfold fooStep
  rw [hnone]

/-- C8 amended: for streams long enough to hold a closing marker (≥ 15
bytes, read in one chunk) in which no opening marker occurs, the search
offset advance `content.len() - pattern.len()` is safe and the loop stops
normally on the zero-byte read at EOF, returning the empty Index. -/
theorem createIdx_markerFree (input : List Nat) (bufSize fuel : Nat)
    (h15 : 15 ≤ input.length) (hbuf : input.length ≤ bufSize)
    (hs : findSub SPECTRUM_START_TAG input = none)
    (hc : findSub CHROMATOGRAM_START_TAG input = none)
    (hf : 2 ≤ fuel) :
    createIdx fuel input bufSize = .ok ([], []) := by
  obtain ⟨f, rfl⟩ : ∃ f, fuel = f + 2 := ⟨fuel - 2, by omega⟩
  have hchunk1 : readChunk input bufSize ⟨0, []⟩ = (input.length, ⟨input.length, input⟩) := by
    unfold readChunk
    rw [List.drop_zero, List.take_of_length_le hbuf]
    simp
  have hchunk2 : readChunk input bufSize ⟨input.length, input⟩
      = (0, ⟨input.length, input⟩) := by
    unfold readChunk
    rw [List.drop_length]
    simp
  have hlen15 : ¬ input.length < CHROMATOGRAM_END_TAG.length := by
    simp only [CHROMATOGRAM_END_TAG, strBytes]
    simp
    omega
  unfold createIdx
  rw [show f + 2 = (f + 1) + 1 from rfl, createIdxLoop_succ, hchunk1]
  rw [fooStep_none input bufSize (f + 1) SPECTRUM_START_TAG SPECTRUM_END_TAG
    ⟨input.length, input⟩ 0 [] (by rw [List.drop_zero]; exact hs)]
  dsimp only
  rw [fooStep_none input bufSize (f + 1) CHROMATOGRAM_START_TAG CHROMATOGRAM_END_TAG
    ⟨input.length, input⟩ 0 [] (by rw [List.drop_zero]; exact hc)]
  dsimp only
  rw [if_neg hlen15, if_neg (by omega)]
  rw [createIdxLoop_succ, hchunk2]
  rw [fooStep_none input bufSize f SPECTRUM_START_TAG SPECTRUM_END_TAG
    ⟨input.length, input⟩ (input.length - CHROMATOGRAM_END_TAG.length) []
    (findSub_none_drop _ _ _ hs)]
  dsimp only
  rw [fooStep_none input bufSize f CHROMATOGRAM_START_TAG CHROMATOGRAM_END_TAG
    ⟨input.length, input⟩ (input.length - CHROMATOGRAM_END_TAG.length) []
    (findSub_none_drop _ _ _ hc)]
  dsimp only
  rw [if_neg hlen15, if_pos rfl]

/-- C8 counterexample: on the three-byte stream "abc" — shorter than a
closing marker, containing no record elements — the scan loop's offset
advance `content.len() - CHROMATOGRAM_END_TAG.len()` underflows and the
run panics instead of stopping normally with the empty Index. -/
theorem c8_counterexample :
    createIdx 9 (strBytes "abc") 1024 = .panicked ∧ (strBytes "abc").length < 15 := by
  constructor
  · decide
  · decide

/-- A marker-free 16-byte stream. -/
def exC8Input : List Nat := strBytes "aaaaaaaaaaaaaaaa"

/-- C8 witness: the amended theorem at a concrete 16-byte marker-free
stream. -/
theorem c8_witness : createIdx 2 exC8Input 1024 = .ok ([], []) :=
  createIdx_markerFree exC8Input 1024 2 (by decide) (by decide) (by decide)
    (by decide) (by decide)

/-- A stream whose spectrum element is never closed. -/
def exC3Input : List Nat := strBytes "<spectrum id=\"a\">"

theorem exC3_findClosingTag_loop : ∀ fuel : Nat,
    findClosingTag exC3Input 1024 fuel ⟨17, exC3Input⟩ 6 SPECTRUM_END_TAG
      = .outOfFuel := by
  intro fuel
  induction fuel with
  | zero => rfl
  | succ f ih =>
    rw [show findClosingTag exC3Input 1024 (f + 1) ⟨17, exC3Input⟩ 6 SPECTRUM_END_TAG
        = findClosingTag exC3Input 1024 f ⟨17, exC3Input ++ ([] : List Nat)⟩ 6
            SPECTRUM_END_TAG from rfl]
    rw [List.append_nil]
    exact ih

theorem exC3_findClosingTag : ∀ fuel : Nat,
    findClosingTag exC3Input 1024 fuel ⟨17, exC3Input⟩ 0 SPECTRUM_END_TAG
      = .outOfFuel := by
  intro fuel
  cases fuel with
  | zero => rfl
  | succ f =>
    rw [show findClosingTag exC3Input 1024 (f + 1) ⟨17, exC3Input⟩ 0 SPECTRUM_END_TAG
        = findClosingTag exC3Input 1024 f ⟨17, exC3Input ++ ([] : List Nat)⟩ 6
            SPECTRUM_END_TAG from rfl]
    rw [List.append_nil]
    exact exC3_findClosingTag_loop f

/-- C3: on a stream in which a `<spectrum ` opening marker is found but
EOF arrives before `</spectrum>`, index construction never terminates —
for every fuel bound the run is still searching.  The source's
`bail!("Closing tag not found.")` is unreachable from this state: once the
opening tag is buffered, `content` can never become empty, so
`find_closing_tag` re-scans the same buffered bytes forever. -/
theorem createIdx_unclosed_diverges : ∀ fuel : Nat,
    createIdx fuel exC3Input 1024 = .outOfFuel := by
  intro fuel
  cases fuel with
  | zero => rfl
  | succ f =>
    unfold createIdx
    rw [createIdxLoop_succ]
    rw [show (readChunk exC3Input 1024 ⟨0, []⟩).2 = ⟨17, exC3Input⟩ from by decide]
    have hfoo : fooStep exC3Input 1024 f SPECTRUM_START_TAG SPECTRUM_END_TAG
        ⟨17, exC3Input⟩ 0 [] = .outOfFuel := by
      unfold fooStep
      rw [show findSub SPECTRUM_START_TAG ((⟨17, exC3Input⟩ : IdxState).content.drop 0)
          = some 0 from by decide]
      dsimp only
      rw [show (0 : Nat) + 0 = 0 from rfl, exC3_findClosingTag f]
    rw [hfoo]

theorem take_take_length (l : List Nat) (n : Nat) :
    l.take ((l.take n).length) = l.take n := by
  rw [List.length_take]
  rcases Nat.le_total n l.length with h | h
  · rw [Nat.min_eq_left h]
  · rw [Nat.min_eq_right h, List.take_length, List.take_of_length_le h]

/-- The indexer invariant: the buffered `content` is exactly the slice of
the input from `file_position - content.len()` to `file_position`. -/
def IdxInv (input : List Nat) (st : IdxState) : Prop :=
  st.pos ≤ input.length ∧ st.content.length ≤ st.pos ∧
  st.content = (input.drop (st.pos - st.content.length)).take st.content.length

theorem readChunk_inv (input : List Nat) (bufSize : Nat) (st : IdxState)
    (h : IdxInv input st) :
    IdxInv input (readChunk input bufSize st).2 ∧
    (readChunk input bufSize st).2.pos - (readChunk input bufSize st).2.content.length
      = st.pos - st.content.length ∧
    st.content.length ≤ (readChunk input bufSize st).2.content.length ∧
    (readChunk input bufSize st).2.content
      = st.content ++ (input.drop st.pos).take bufSize := by
  obtain ⟨h1, h2, h3⟩ := h
  have hklen : ((input.drop st.pos).take bufSize).length ≤ input.length - st.pos := by
    rw [List.length_take, List.length_drop]
    omega
  refine ⟨⟨?_, ?_, ?_⟩, ?_, ?_, rfl⟩
  · show st.pos + ((input.drop st.pos).take bufSize).length ≤ input.length
    omega
  · show (st.content ++ (input.drop st.pos).take bufSize).length
      ≤ st.pos + ((input.drop st.pos).take bufSize).length
    rw [List.length_append]
    omega
  · show st.content ++ (input.drop st.pos).take bufSize
      = (input.drop (st.pos + ((input.drop st.pos).take bufSize).length
          - (st.content ++ (input.drop st.pos).take bufSize).length)).take
        (st.content ++ (input.drop st.pos).take bufSize).length
    rw [List.length_append]
    have hb : st.pos + ((input.drop st.pos).take bufSize).length
        - (st.content.length + ((input.drop st.pos).take bufSize).length)
        = st.pos - st.content.length := by omega
    rw [hb, List.take_add, ← h3, List.drop_drop]
    have hpos : st.pos - st.content.length + st.content.length = st.pos := by omega
    rw [hpos]
    exact congrArg (st.content ++ ·) (take_take_length (input.drop st.pos) bufSize).symm
  · show st.pos + ((input.drop st.pos).take bufSize).length
      - (st.content ++ (input.drop st.pos).take bufSize).length
      = st.pos - st.content.length
    rw [List.length_append]
    omega
  · show st.content.length ≤ (st.content ++ (input.drop st.pos).take bufSize).length
    rw [List.length_append]
    omega

theorem drain_inv (input : List Nat) (st' : IdxState) (h : IdxInv input st')
    (e : Nat) (he : e ≤ st'.content.length) :
    IdxInv input ⟨st'.pos, st'.content.drop e⟩ := by
  obtain ⟨h1, h2, h3⟩ := h
  refine ⟨h1, ?_, ?_⟩
  · show (st'.content.drop e).length ≤ st'.pos
    rw [List.length_drop]
    omega
  · show st'.content.drop e
      = (input.drop (st'.pos - (st'.content.drop e).length)).take
        (st'.content.drop e).length
    rw [List.length_drop]
    conv_lhs => rw [h3]
    rw [List.drop_take, List.drop_drop]
    congr 2
    omega

theorem findClosingTag_succ_some (input : List Nat) (bufSize f : Nat)
    (st : IdxState) (so : Nat) (pat : List Nat) (position : Nat)
    (hfind : findSub pat (st.content.drop so) = some position) :
    findClosingTag input bufSize (f + 1) st so pat
      = .ok (st, so + position + pat.length) := by
  unfold findClosingTag
  rw [hfind]

theorem findClosingTag_succ_none (input : List Nat) (bufSize f : Nat)
    (st : IdxState) (so : Nat) (pat : List Nat)
    (hfind : findSub pat (st.content.drop so) = none) :
    findClosingTag input bufSize (f + 1) st so pat
      = if st.content.length < pat.length then .panicked
        else if (readChunk input bufSize st).2.content.isEmpty then
          .err "Closing tag not found."
        else findClosingTag input bufSize f (readChunk input bufSize st).2
          (st.content.length - pat.length) pat := by
  conv_lhs => rw [findClosingTag]
  rw [hfind]

theorem findClosingTag_spec (input : List Nat) (bufSize : Nat) (pat : List Nat)
    (hp : pat ≠ []) :
    ∀ (fuel : Nat) (st : IdxState) (so rel : Nat) (st' : IdxState) (e : Nat),
    findClosingTag input bufSize fuel st so pat = .ok (st', e) →
    IdxInv input st →
    rel + pat.length ≤ st.content.length + 1 →
    rel ≤ so + 1 →
    (∀ j, rel ≤ j → j < so → ¬ occursAt pat st.content j) →
    IdxInv input st' ∧
    st'.pos - st'.content.length = st.pos - st.content.length ∧
    st.content.length ≤ st'.content.length ∧
    st'.content.take st.content.length = st.content ∧
    ∃ q, e = q + pat.length ∧ rel ≤ q + 1 ∧ occursAt pat st'.content q ∧
      (∀ j, rel ≤ j → j < q → ¬ occursAt pat st'.content j) ∧
      q + pat.length ≤ st'.content.length := by
  have hppos : 0 < pat.length := List.length_pos.mpr hp
  intro fuel
  induction fuel with
  | zero =>
    intro st so rel st' e h
    rw [show findClosingTag input bufSize 0 st so pat = RustResult.outOfFuel from rfl] at h
    exact RustResult.noConfusion h
  | succ f ih =>
    intro st so rel st' e h hinv hlen hso hpre
    cases hfind : findSub pat (st.content.drop so) with
    | some position =>
      rw [findClosingTag_succ_some input bufSize f st so pat position hfind] at h
      injection h with hpair
      rw [Prod.mk.injEq] at hpair
      obtain ⟨hst, he⟩ := hpair
      subst hst
      subst he
      have hocc : occursAt pat st.content (so + position) :=
        (occursAt_drop_iff pat st.content so position).mp
          (findSub_some_occursAt pat _ position hfind)
      refine ⟨hinv, rfl, Nat.le_refl _, List.take_length st.content,
        so + position, rfl, by omega, hocc, ?_, occursAt_length_le pat _ _ hp hocc⟩
      intro j hj1 hj2 hocc'
      rcases Nat.lt_or_ge j so with hcase | hcase
      · exact hpre j hj1 hcase hocc'
      · have hj : so + (j - so) = j := by omega
        exact findSub_some_min pat _ position hfind (j - so) (by omega)
          ((occursAt_drop_iff pat st.content so (j - so)).mpr (by rw [hj]; exact hocc'))
    | none =>
      rw [findClosingTag_succ_none input bufSize f st so pat hfind] at h
      by_cases hsmall : st.content.length < pat.length
      · rw [if_pos hsmall] at h
        exact RustResult.noConfusion h
      · rw [if_neg hsmall] at h
        by_cases hempty : (readChunk input bufSize st).2.content.isEmpty
        · rw [if_pos hempty] at h
          exact RustResult.noConfusion h
        · rw [if_neg hempty] at h
          obtain ⟨hinv1, hbase1, hmono1, hcont1⟩ := readChunk_inv input bufSize st hinv
          have hnone := (findSub_none_iff pat (st.content.drop so)).mp hfind
          have hpre1 : ∀ j, rel ≤ j → j < st.content.length - pat.length →
              ¬ occursAt pat (readChunk input bufSize st).2.content j := by
            intro j hj1 hj2 hocc
            have hfit : j + pat.length ≤ st.content.length := by omega
            rw [hcont1, occursAt_prefix_iff pat st.content _ j hfit] at hocc
            rcases Nat.lt_or_ge j so with hcase | hcase
            · exact hpre j hj1 hcase hocc
            · have hj : so + (j - so) = j := by omega
              exact hnone (j - so)
                ((occursAt_drop_iff pat st.content so (j - so)).mpr (by rw [hj]; exact hocc))
          obtain ⟨hinv2, hbase2, hmono2, htake2, q, hq1, hq2, hq3, hq4, hq5⟩ :=
            ih (readChunk input bufSize st).2 (st.content.length - pat.length) rel st' e h
              hinv1 (by omega) (by omega) hpre1
          refine ⟨hinv2, by omega, by omega, ?_, q, hq1, hq2, hq3, hq4, hq5⟩
          have hnest : st'.content.take st.content.length
              = (st'.content.take (readChunk input bufSize st).2.content.length).take
                st.content.length := by
            rw [List.take_take, Nat.min_eq_left hmono1]
          rw [hnest, htake2, hcont1]
          exact List.take_left st.content _

theorem fooStep_eq_some (input : List Nat) (bufSize fuel : Nat)
    (startTag endTag : List Nat) (st : IdxState) (so : Nat)
    (offsets : List (List Nat × Nat)) (position : Nat)
    (hfind : findSub startTag (st.content.drop so) = some position) :
    fooStep input bufSize fuel startTag endTag st so offsets
      = match findClosingTag input bufSize fuel st (so + position) endTag with
        | .ok (st', relativeEndOffset) =>
          (match getSpectrumId ((st'.content.drop (so + position)).take
              (relativeEndOffset - (so + position))) with
          | .error e => .err e
          | .ok tagId =>
            .ok (true, ⟨st'.pos, st'.content.drop relativeEndOffset⟩, 0,
              insertAssoc tagId (st.pos - st.content.length + (so + position)) offsets))
        | .err e => .err e
        | .panicked => .panicked
        | .outOfFuel => .outOfFuel := by
  unfold fooStep
  rw [hfind]

/-- A sound index entry for `input`: the opening marker occurs at the
recorded absolute offset, the matching closing marker is the first
occurrence of the end marker from that offset, and the id extracted (first
literal `id="..."` value) from the enclosed slice equals the key. -/
def soundEntry (input startTag endTag : List Nat) (entry : List Nat × Nat) : Prop :=
  occursAt startTag input entry.2 ∧
  ∃ p, findSub endTag (input.drop entry.2) = some p ∧
    getSpectrumId ((input.drop entry.2).take (p + endTag.length)) = .ok entry.1

theorem fooStep_spec (input : List Nat) (bufSize fuel : Nat)
    (startTag endTag : List Nat) (hs : startTag ≠ []) (hep : endTag ≠ [])
    (hlen2 : 1 < endTag.length) (hlen1 : endTag.length ≤ startTag.length + 1)
    (hclash : startTag[0]? ≠ endTag[1]?)
    (st : IdxState) (so : Nat) (offsets : List (List Nat × Nat))
    (b : Bool) (st2 : IdxState) (so2 : Nat) (offsets2 : List (List Nat × Nat))
    (h : fooStep input bufSize fuel startTag endTag st so offsets
      = .ok (b, st2, so2, offsets2))
    (hinv : IdxInv input st)
    (hsound : ∀ entry ∈ offsets, soundEntry input startTag endTag entry) :
    IdxInv input st2 ∧
    ∀ entry ∈ offsets2, soundEntry input startTag endTag entry := by
  cases hfind : findSub startTag (st.content.drop so) with
  | none =>
    rw [fooStep_none input bufSize fuel startTag endTag st so offsets hfind] at h
    injection h with hpair
    rw [Prod.mk.injEq, Prod.mk.injEq, Prod.mk.injEq] at hpair
    obtain ⟨-, hst, -, hoffs⟩ := hpair
    subst hst
    subst hoffs
    exact ⟨hinv, hsound⟩
  | some position =>
    rw [fooStep_eq_some input bufSize fuel startTag endTag st so offsets position hfind] at h
    cases hfct : findClosingTag input bufSize fuel st (so + position) endTag with
    | err e => rw [hfct] at h; exact RustResult.noConfusion h
    | panicked => rw [hfct] at h; exact RustResult.noConfusion h
    | outOfFuel => rw [hfct] at h; exact RustResult.noConfusion h
    | ok pr =>
      obtain ⟨st', e⟩ := pr
      rw [hfct] at h
      dsimp only at h
      cases hgid : getSpectrumId ((st'.content.drop (so + position)).take
          (e - (so + position))) with
      | error msg => rw [hgid] at h; exact RustResult.noConfusion h
      | ok tagId =>
        rw [hgid] at h
        dsimp only at h
        injection h with hpair
        rw [Prod.mk.injEq, Prod.mk.injEq, Prod.mk.injEq] at hpair
        obtain ⟨-, hst, -, hoffs⟩ := hpair
        subst hst
        subst hoffs
        have hoccS : occursAt startTag st.content (so + position) :=
          (occursAt_drop_iff startTag st.content so position).mp
            (findSub_some_occursAt startTag _ position hfind)
        have hfitS : so + position + startTag.length ≤ st.content.length :=
          occursAt_length_le startTag _ _ hs hoccS
        have hinvKeep := hinv
        obtain ⟨hinva, hinvb, hinvc⟩ := hinv
        obtain ⟨hinv2, hbase2, hmono2, htake2, q, hq1, hq2, hq3, hq4, hq5⟩ :=
          findClosingTag_spec input bufSize endTag hep fuel st (so + position)
            (so + position) st' e hfct hinvKeep (by omega) (by omega)
            (fun j hj1 hj2 _ => absurd hj2 (by omega))
        have hoccS' : occursAt startTag st'.content (so + position) := by
          rw [← htake2] at hoccS
          exact (occursAt_take_iff startTag st'.content st.content.length
            (so + position) hfitS).mp hoccS
        have hqrel : so + position ≤ q := by
          rcases Nat.lt_or_ge q (so + position) with hlt | hge
          · exfalso
            have hq : q + 1 = so + position := by omega
            have h1 := occursAt_getElem? startTag st'.content (so + position) hoccS' 0
              (List.length_pos.mpr hs)
            have h2 := occursAt_getElem? endTag st'.content q hq3 1 hlen2
            rw [Nat.add_zero] at h1
            rw [hq] at h2
            exact hclash (h1.symm.trans h2)
          · exact hge
        have hinv2Keep := hinv2
        obtain ⟨hinv2a, hinv2b, hinv2c⟩ := hinv2
        rw [hbase2] at hinv2c
        have hoccE : occursAt endTag input (st.pos - st.content.length + q) := by
          have hq3' := hq3
          rw [hinv2c] at hq3'
          exact (occursAt_slice_iff endTag input (st.pos - st.content.length)
            st'.content.length q hq5).mp hq3'
        have hocc_drop : occursAt endTag
            (input.drop (st.pos - st.content.length + (so + position)))
            (q - (so + position)) := by
          rw [occursAt_drop_iff]
          have harith : st.pos - st.content.length + (so + position) + (q - (so + position))
              = st.pos - st.content.length + q := by omega
          rw [harith]
          exact hoccE
        have hmin_drop : ∀ j, j < q - (so + position) →
            ¬ occursAt endTag (input.drop (st.pos - st.content.length + (so + position))) j := by
          intro j hj hocc
          rw [occursAt_drop_iff] at hocc
          have hfit : (so + position + j) + endTag.length ≤ st'.content.length := by omega
          have hoccC : occursAt endTag st'.content (so + position + j) := by
            rw [hinv2c]
            rw [occursAt_slice_iff endTag input (st.pos - st.content.length)
              st'.content.length (so + position + j) hfit]
            have harith : st.pos - st.content.length + (so + position + j)
                = st.pos - st.content.length + (so + position) + j := by omega
            rw [harith]
            exact hocc
          exact hq4 (so + position + j) (by omega) (by omega) hoccC
        have hfind_inp : findSub endTag
            (input.drop (st.pos - st.content.length + (so + position)))
            = some (q - (so + position)) :=
          findSub_eq_some_of endTag _ (q - (so + position)) hocc_drop hmin_drop
        have hslice : (st'.content.drop (so + position)).take (e - (so + position))
            = (input.drop (st.pos - st.content.length + (so + position))).take
              (q - (so + position) + endTag.length) := by
          rw [hinv2c, List.drop_take, List.drop_drop, List.take_take]
          have h1 : min (e - (so + position)) (st'.content.length - (so + position))
              = q - (so + position) + endTag.length := by omega
          rw [h1]
        rw [hslice] at hgid
        have hoccS_inp : occursAt startTag input
            (st.pos - st.content.length + (so + position)) := by
          have hoccS2 := hoccS
          rw [hinvc] at hoccS2
          exact (occursAt_slice_iff startTag input (st.pos - st.content.length)
            st.content.length (so + position) hfitS).mp hoccS2
        constructor
        · exact drain_inv input st' hinv2Keep e (by omega)
        · intro entry hentry
          rcases mem_insertAssoc tagId (st.pos - st.content.length + (so + position))
            offsets entry hentry with heq | hmem
          · subst heq
            exact ⟨hoccS_inp, q - (so + position), hfind_inp, hgid⟩
          · exact hsound entry hmem

theorem createIdxLoop_sound (input : List Nat) (bufSize : Nat) :
    ∀ (fuel : Nat) (st : IdxState) (so : Nat) (sp ch sp' ch' : List (List Nat × Nat)),
    createIdxLoop input bufSize fuel st so sp ch = .ok (sp', ch') →
    IdxInv input st →
    (∀ entry ∈ sp, soundEntry input SPECTRUM_START_TAG SPECTRUM_END_TAG entry) →
    (∀ entry ∈ ch, soundEntry input CHROMATOGRAM_START_TAG CHROMATOGRAM_END_TAG entry) →
    (∀ entry ∈ sp', soundEntry input SPECTRUM_START_TAG SPECTRUM_END_TAG entry) ∧
    (∀ entry ∈ ch', soundEntry input CHROMATOGRAM_START_TAG CHROMATOGRAM_END_TAG entry) := by
  intro fuel
  induction fuel with
  | zero =>
    intro st so sp ch sp' ch' h
    rw [show createIdxLoop input bufSize 0 st so sp ch = RustResult.outOfFuel from rfl] at h
    exact RustResult.noConfusion h
  | succ f ih =>
    intro st so sp ch sp' ch' h hinv hsp hch
    rw [createIdxLoop_succ] at h
    obtain ⟨hinv1, -, -, -⟩ := readChunk_inv input bufSize st hinv
    cases hfoo1 : fooStep input bufSize f SPECTRUM_START_TAG SPECTRUM_END_TAG
        (readChunk input bufSize st).2 so sp with
    | err e => rw [hfoo1] at h; exact RustResult.noConfusion h
    | panicked => rw [hfoo1] at h; exact RustResult.noConfusion h
    | outOfFuel => rw [hfoo1] at h; exact RustResult.noConfusion h
    | ok quad1 =>
      obtain ⟨b2, st2, so2, sp2⟩ := quad1
      rw [hfoo1] at h
      obtain ⟨hinv2, hsp2⟩ := fooStep_spec input bufSize f SPECTRUM_START_TAG
        SPECTRUM_END_TAG (by decide) (by decide) (by decide) (by decide) (by decide)
        (readChunk input bufSize st).2 so sp b2 st2 so2 sp2 hfoo1 hinv1 hsp
      cases b2 with
      | true =>
        dsimp only at h
        exact ih st2 so2 sp2 ch sp' ch' h hinv2 hsp2 hch
      | false =>
        dsimp only at h
        cases hfoo2 : fooStep input bufSize f CHROMATOGRAM_START_TAG
            CHROMATOGRAM_END_TAG st2 so2 ch with
        | err e => rw [hfoo2] at h; exact RustResult.noConfusion h
        | panicked => rw [hfoo2] at h; exact RustResult.noConfusion h
        | outOfFuel => rw [hfoo2] at h; exact RustResult.noConfusion h
        | ok quad2 =>
          obtain ⟨b3, st3, so3, ch3⟩ := quad2
          rw [hfoo2] at h
          obtain ⟨hinv3, hch3⟩ := fooStep_spec input bufSize f CHROMATOGRAM_START_TAG
            CHROMATOGRAM_END_TAG (by decide) (by decide) (by decide) (by decide)
            (by decide) st2 so2 ch b3 st3 so3 ch3 hfoo2 hinv2 hch
          cases b3 with
          | true =>
            dsimp only at h
            exact ih st3 so3 sp2 ch3 sp' ch' h hinv3 hsp2 hch3
          | false =>
            dsimp only at h
            by_cases hsmall : st3.content.length < CHROMATOGRAM_END_TAG.length
            · rw [if_pos hsmall] at h
              exact RustResult.noConfusion h
            · rw [if_neg hsmall] at h
              by_cases hzero : (readChunk input bufSize st).1 = 0
              · rw [if_pos hzero] at h
                injection h with hpair
                rw [Prod.mk.injEq] at hpair
                obtain ⟨hsp', hch'⟩ := hpair
                subst hsp'
                subst hch'
                exact ⟨hsp2, hch3⟩
              · rw [if_neg hzero] at h
                exact ih st3 (st3.content.length - CHROMATOGRAM_END_TAG.length)
                  sp2 ch3 sp' ch' h hinv3 hsp2 hch3

/-- **C2**: for every id key that `create_idx` records in the spectrum or
chromatogram map, the input bytes starting at the recorded absolute offset
begin with the exact opening marker, and the value of the first `id="…"`
attribute occurring between that opening marker and its matching closing
marker (the first closing-marker occurrence from the recorded offset)
equals the key. -/
theorem createIdx_sound (fuel : Nat) (input : List Nat) (bufSize : Nat)
    (sp ch : List (List Nat × Nat))
    (h : createIdx fuel input bufSize = .ok (sp, ch)) :
    (∀ entry ∈ sp, soundEntry input SPECTRUM_START_TAG SPECTRUM_END_TAG entry) ∧
    (∀ entry ∈ ch, soundEntry input CHROMATOGRAM_START_TAG CHROMATOGRAM_END_TAG entry) :=
  createIdxLoop_sound input bufSize fuel ⟨0, []⟩ 0 [] [] sp ch h
    ⟨Nat.zero_le _, Nat.le_refl 0, rfl⟩ (fun _ hmem => absurd hmem (List.not_mem_nil _))
    (fun _ hmem => absurd hmem (List.not_mem_nil _))

/-- A concrete run for C2: one spectrum element at offset 0. -/
def exC2Input : List Nat := strBytes "<spectrum id=\"s1\">x</spectrum></spectrumList>"

theorem c2_witness :
    soundEntry exC2Input SPECTRUM_START_TAG SPECTRUM_END_TAG (strBytes "s1", 0) :=
  (createIdx_sound 2 exC2Input 1024 [(strBytes "s1", 0)] [] (by decide)).1
    (strBytes "s1", 0) (by decide)
